import Mathlib

/-!
Shallow embedding of the `simple-db` storage engine (`src/lib.rs`):
a single-table record store with fixed 291-byte rows packed into
4096-byte pages, demand-paged from a backing file and flushed back at
table teardown.  Bytes are modelled as `Nat` (with explicit `% 256`
truncation where the source casts to `u8`), the backing file and page
buffers as `List Nat`, Rust panics as `Option` failure and `DbError`
results as explicit sums.
-/

set_option maxRecDepth 8000

namespace SimpleDb

/-! ## Definitions: the embedded data model and operations -/

def USERID_SIZE : Nat := 31

def EMAIL_SIZE : Nat := 254

def ROW_SIZE : Nat := EMAIL_SIZE + USERID_SIZE + 4 + 2

def PAGE_SIZE : Nat := 4096

def ROWS_PER_PAGE : Nat := PAGE_SIZE / ROW_SIZE

def TABLE_MAX_PAGES : Nat := 100

def TABLE_MAX_ROWS : Nat := ROWS_PER_PAGE * TABLE_MAX_PAGES

def segment (l : List Nat) (o n : Nat) : List Nat := (l.drop o).take n

def writeRange (l : List Nat) (o : Nat) (d : List Nat) : List Nat :=
  l.take o ++ d ++ l.drop (o + d.length)

/-- Pad a list with zeros on the right up to length `n` (no-op if already longer). -/
def padTo (l : List Nat) (n : Nat) : List Nat := l ++ List.replicate (n - l.length) 0

/-- Write `d` into the byte sequence `f` at offset `o`: the image of
`seek(o); write_all(d)` on a file, where seeking past the end fills the
gap with zeros and the file grows as needed. -/
def writeAt (f : List Nat) (o : Nat) (d : List Nat) : List Nat :=
  f.take o ++ List.replicate (o - f.length) 0 ++ d ++ f.drop (o + d.length)

inductive DbError where
  | MetaUnrecognized
  | StatementUnrecognized
  | StatementSyntaxError
  | TableFull
  | ParsingError
deriving DecidableEq, Repr

structure Row where
  id : Nat
  user_id : List Nat
  email : List Nat
deriving DecidableEq, Repr

/-- A continuation byte `0x80..0xBF`. -/
def contByte (c : Nat) : Bool := decide (0x80 ≤ c ∧ c < 0xC0)

/-- Strict UTF-8 validity of a byte sequence, as checked by Rust's
`str::from_utf8` (rejects overlongs, surrogates and values above
`0x10FFFF`). -/
def utf8Valid : List Nat → Bool
  | [] => true
  | b :: rest =>
    if b < 0x80 then utf8Valid rest
    else if b < 0xC2 then false
    else if b < 0xE0 then
      match rest with
      | c1 :: rest2 => contByte c1 && utf8Valid rest2
      | [] => false
    else if b < 0xF0 then
      match rest with
      | c1 :: c2 :: rest2 =>
        (if b = 0xE0 then decide (0xA0 ≤ c1 ∧ c1 < 0xC0)
         else if b = 0xED then decide (0x80 ≤ c1 ∧ c1 < 0xA0)
         else contByte c1) && contByte c2 && utf8Valid rest2
      | _ => false
    else if b < 0xF5 then
      match rest with
      | c1 :: c2 :: c3 :: rest2 =>
        (if b = 0xF0 then decide (0x90 ≤ c1 ∧ c1 < 0xC0)
         else if b = 0xF4 then decide (0x80 ≤ c1 ∧ c1 < 0x90)
         else contByte c1) && contByte c2 && contByte c3 && utf8Valid rest2
      | _ => false
    else false

/-- A record the Rust program can hold: `id : u32`, both `String`
fields valid UTF-8 within the schema's byte bounds. -/
def Row.valid (r : Row) : Prop :=
  r.id < 2 ^ 32 ∧ r.user_id.length ≤ USERID_SIZE ∧ r.email.length ≤ EMAIL_SIZE ∧
    utf8Valid r.user_id = true ∧ utf8Valid r.email = true

instance (r : Row) : Decidable r.valid := by
  unfold Row.valid
  infer_instance

/-- Model of `Row::serialize`: write the id as four little-endian bytes at
offsets 0..3, the field lengths (truncated `as u8`) at offsets 4 and 5,
then the two byte strings back-to-back from offset 6; bytes past the
encoded fields keep their previous contents.  `none` is the panic when
a slice bound exceeds the buffer. -/
def Row.serialize (r : Row) (data : List Nat) : Option (List Nat) :=
  if 6 + r.user_id.length + r.email.length ≤ data.length then
    some ([r.id % 256, (r.id >>> 8) % 256, (r.id >>> 16) % 256, (r.id >>> 24) % 256,
           r.user_id.length % 256, r.email.length % 256]
          ++ r.user_id ++ r.email ++ data.drop (6 + r.user_id.length + r.email.length))
  else none

/-- Model of `Row::deserialize`: rebuild the id by XOR-ing shifted bytes, read
the two length bytes, slice the fields out, and interpret them as
UTF-8.  `none` is the panic when a slice bound is out of range or
`from_utf8(..).unwrap()` fails. -/
def Row.deserialize (data : List Nat) : Option Row :=
  match data with
  | b0 :: b1 :: b2 :: b3 :: b4 :: b5 :: rest =>
    if b4 + b5 ≤ rest.length then
      if utf8Valid (rest.take b4) && utf8Valid (segment rest b4 b5) then
        some { id := b0 ^^^ (b1 <<< 8) ^^^ (b2 <<< 16) ^^^ (b3 <<< 24),
               user_id := rest.take b4, email := segment rest b4 b5 }
      else none
    else none
  | _ => none

structure Pager where
  file : List Nat
  file_length : Nat
  pages : List (List Nat)

/-- Model of `Pager::open`: capture the file length and install `TABLE_MAX_PAGES`
empty (capacity-0) page slots. -/
def Pager.open (file : List Nat) : Pager :=
  { file := file, file_length := file.length,
    pages := List.replicate TABLE_MAX_PAGES [] }

/-- Model of `read_exact` after seeking to `start`: fill the first `size` bytes
of `buf` from the file, keep the rest; error if the file is too short. -/
def readExact (file : List Nat) (start size : Nat) (buf : List Nat) : Option (List Nat) :=
  if start + size ≤ file.length then
    some (segment file start size ++ buf.drop size)
  else none

/-- Model of `Pager::get`: demand-load a page.  Panics (`none`) if
`page_num > TABLE_MAX_PAGES` (explicit check) or `page_num` is outside
the pages vector (index panic).  An unloaded page is replaced by a
zero-filled `PAGE_SIZE` buffer, read back from the file when the page
index is within the file's extent (a short trailing page reads only
`file_length - start_offset` bytes). -/
def Pager.get (p : Pager) (page_num : Nat) : Option (Pager × List Nat) :=
  if page_num > TABLE_MAX_PAGES then none
  else if hp : page_num < p.pages.length then
    if (p.pages.get ⟨page_num, hp⟩).length = 0 then
      if page_num < p.file_length / PAGE_SIZE +
          (if p.file_length % PAGE_SIZE ≠ 0 then 1 else 0) then
        match readExact p.file (page_num * PAGE_SIZE)
            (if p.file_length < page_num * PAGE_SIZE + PAGE_SIZE
             then p.file_length - page_num * PAGE_SIZE else PAGE_SIZE)
            (List.replicate PAGE_SIZE 0) with
        | none => none
        | some buf2 => some ({ p with pages := p.pages.set page_num buf2 }, buf2)
      else
        some ({ p with pages := p.pages.set page_num (List.replicate PAGE_SIZE 0) },
          List.replicate PAGE_SIZE 0)
    else some (p, p.pages.get ⟨page_num, hp⟩)
  else none

/-- Model of `Pager::flush`: no-op if the page was never materialized; otherwise
seek to `page_num * PAGE_SIZE` and write the first `size` bytes of the
resident buffer (slicing panics if `size` exceeds the buffer). -/
def Pager.flush (p : Pager) (page_num size : Nat) : Option Pager :=
  if hp : page_num < p.pages.length then
    if (p.pages.get ⟨page_num, hp⟩).length = 0 then some p
    else if size ≤ (p.pages.get ⟨page_num, hp⟩).length then
      some { p with
        file := writeAt p.file (page_num * PAGE_SIZE)
          ((p.pages.get ⟨page_num, hp⟩).take size) }
    else none
  else none

/-- The ascending loop `for i in 0..n { pager.flush(i, PAGE_SIZE) }`
from `Drop for Table`. -/
def Pager.flushUpto (p : Pager) : Nat → Option Pager
  | 0 => some p
  | n + 1 =>
    match p.flushUpto n with
    | none => none
    | some p2 => p2.flush n PAGE_SIZE

structure Table where
  pager : Pager
  num_rows : Nat

/-- Model of `Table::db_open`: open the pager and recompute `num_rows` from the
captured file length (`pager.file_length = file.length` by
`Pager.open`): full pages contribute `ROWS_PER_PAGE` rows each, the
partial trailing page `remainder / ROW_SIZE` rows. -/
def Table.db_open (file : List Nat) : Table :=
  { pager := Pager.open file,
    num_rows := (file.length - (file.length / PAGE_SIZE) * PAGE_SIZE) / ROW_SIZE +
      (file.length / PAGE_SIZE) * ROWS_PER_PAGE }

/-- Model of `Table::get_row`: translate a row index to (page, byte offset),
fail with `TableFull` when the page index reaches `TABLE_MAX_PAGES`,
otherwise materialize the page and hand back the row's 291-byte window
(plus its location, standing in for the returned mutable slice).  The
`Except.error` branch returns before touching the pager, so the caller
keeps the table unchanged. -/
def Table.get_row (t : Table) (row_num : Nat) :
    Option (Except DbError (Table × Nat × Nat × List Nat)) :=
  if row_num / ROWS_PER_PAGE ≥ TABLE_MAX_PAGES then some (Except.error DbError.TableFull)
  else
    match t.pager.get (row_num / ROWS_PER_PAGE) with
    | none => none
    | some (pg, page) =>
      if (row_num % ROWS_PER_PAGE) * ROW_SIZE + ROW_SIZE ≤ page.length then
        some (Except.ok ({ t with pager := pg }, row_num / ROWS_PER_PAGE,
          (row_num % ROWS_PER_PAGE) * ROW_SIZE,
          segment page ((row_num % ROWS_PER_PAGE) * ROW_SIZE) ROW_SIZE))
      else none

/-- Write a row window back into its page: the image of mutating the
page buffer through the slice `get_row` returned. -/
def Table.writeSlot (t : Table) (page_num byte_offset : Nat) (slot : List Nat) :
    Option Table :=
  if hp : page_num < t.pager.pages.length then
    some { t with
      pager := { t.pager with
        pages := t.pager.pages.set page_num
          (writeRange (t.pager.pages.get ⟨page_num, hp⟩) byte_offset slot) } }
  else none

/-- Model of `Table::add_row`: serialize the record into the row window at index
`num_rows`, then increment `num_rows`.  On the `TableFull` path the
original table is returned untouched. -/
def Table.add_row (t : Table) (r : Row) : Option (Table × Option DbError) :=
  match t.get_row t.num_rows with
  | none => none
  | some (Except.error e) => some (t, some e)
  | some (Except.ok (t2, page_num, byte_offset, slot)) =>
    match r.serialize slot with
    | none => none
    | some slot2 =>
      match t2.writeSlot page_num byte_offset slot2 with
      | none => none
      | some t3 => some ({ t3 with num_rows := t3.num_rows + 1 }, none)

/-- Append a sequence of records, stopping at the first error. -/
def Table.addAll (t : Table) : List Row → Option (Table × Option DbError)
  | [] => some (t, none)
  | r :: rs =>
    match t.add_row r with
    | none => none
    | some (t2, some e) => some (t2, some e)
    | some (t2, none) => t2.addAll rs

/-- The body of `statement_command`'s `select` loop over the given row
indices: decode `get_row i` for each `i`, propagating `get_row` errors
and turning a `deserialize` panic into `none`. -/
def Table.scanRows (t : Table) : List Nat → Option (Table × Except DbError (List Row))
  | [] => some (t, Except.ok [])
  | i :: is =>
    match t.get_row i with
    | none => none
    | some (Except.error e) => some (t, Except.error e)
    | some (Except.ok (t2, _, _, slot)) =>
      match Row.deserialize slot with
      | none => none
      | some r =>
        match t2.scanRows is with
        | none => none
        | some (t3, Except.error e) => some (t3, Except.error e)
        | some (t3, Except.ok rest) => some (t3, Except.ok (r :: rest))

/-- Model of `select`: scan rows `0 .. num_rows`. -/
def Table.scan (t : Table) : Option (Table × Except DbError (List Row)) :=
  t.scanRows (List.range t.num_rows)

/-- Model of `Drop for Table`: flush the `num_rows / ROWS_PER_PAGE` full pages
with `PAGE_SIZE` bytes each, then the partial trailing page (if any)
with `(num_rows % ROWS_PER_PAGE) * ROW_SIZE` bytes. -/
def Table.dropTable (t : Table) : Option Pager :=
  match t.pager.flushUpto (t.num_rows / ROWS_PER_PAGE) with
  | none => none
  | some p =>
    if t.num_rows % ROWS_PER_PAGE > 0 then
      p.flush (t.num_rows / ROWS_PER_PAGE) ((t.num_rows % ROWS_PER_PAGE) * ROW_SIZE)
    else some p

/-- The content `Pager::get` would yield for page `n`: the resident
buffer, or the file slice zero-padded to `PAGE_SIZE` if unloaded. -/
def loadPage (file : List Nat) (n : Nat) : List Nat :=
  padTo (segment file (n * PAGE_SIZE) PAGE_SIZE) PAGE_SIZE

def Pager.pageView (p : Pager) (n : Nat) : List Nat :=
  if (p.pages.getD n []).length = 0 then loadPage p.file n else p.pages.getD n []

/-- The 291-byte window the engine associates with row index `i`. -/
def Table.slotView (t : Table) (i : Nat) : List Nat :=
  segment (t.pager.pageView (i / ROWS_PER_PAGE)) ((i % ROWS_PER_PAGE) * ROW_SIZE) ROW_SIZE

def PagesWF (ps : List (List Nat)) : Prop :=
  ∀ pg ∈ ps, pg.length = 0 ∨ pg.length = PAGE_SIZE

structure PagerWF (p : Pager) : Prop where
  pages_len : p.pages.length = TABLE_MAX_PAGES
  file_len : p.file.length = p.file_length
  pages_wf : PagesWF p.pages

/-- Invariant tying a table reached by appending `rs` to a
freshly-opened empty file: the row count matches, every appended row's
window decodes back to it, every page holding appended rows is
resident, and the (still unflushed) backing file is empty. -/
structure Represents (t : Table) (rs : List Row) : Prop where
  wf : PagerWF t.pager
  file_nil : t.pager.file = []
  count : t.num_rows = rs.length
  rows : ∀ i, i < rs.length → Row.deserialize (t.slotView i) = some (rs.getD i ⟨0, [], []⟩)
  resident : ∀ p, p * ROWS_PER_PAGE < rs.length →
    (t.pager.pages.getD p []).length = PAGE_SIZE

/-- Pages evolve monotonically: the slot count is fixed and a resident
(4096-byte) slot stays resident with unchanged length. -/
def ResMono (ps ps2 : List (List Nat)) : Prop :=
  ps2.length = ps.length ∧
  ∀ m, (ps.getD m []).length = PAGE_SIZE → (ps2.getD m []).length = PAGE_SIZE

/-- A concrete valid record used by the witnesses. -/
def sampleRow : Row := { id := 7, user_id := [104, 105], email := [97, 64, 98] }

/-! ## Theorems -/

theorem ROW_SIZE_eq : ROW_SIZE = 291 := rfl

theorem ROWS_PER_PAGE_eq : ROWS_PER_PAGE = 14 := rfl

theorem TABLE_MAX_ROWS_eq : TABLE_MAX_ROWS = 1400 := rfl

theorem segment_getElem? (l : List Nat) (o n i : Nat) :
    (segment l o n)[i]? = if i < n then l[o + i]? else none := by
  unfold segment
  by_cases h : i < n
  · simp [h, List.getElem?_take, List.getElem?_drop]
  · have hlen : ((l.drop o).take n).length ≤ i := by
      have := List.length_take_le n (l.drop o)
      omega
    simp [h, List.getElem?_eq_none hlen]

theorem length_segment (l : List Nat) (o n : Nat) :
    (segment l o n).length = min n (l.length - o) := by
  simp [segment]

theorem length_segment_of_le (l : List Nat) (o n : Nat) (h : o + n ≤ l.length) :
    (segment l o n).length = n := by
  rw [length_segment]; omega

theorem length_writeRange (l : List Nat) (o : Nat) (d : List Nat)
    (h : o + d.length ≤ l.length) : (writeRange l o d).length = l.length := by
  simp [writeRange]; omega

theorem writeRange_getElem? (l : List Nat) (o : Nat) (d : List Nat)
    (h : o + d.length ≤ l.length) (j : Nat) :
    (writeRange l o d)[j]? =
      if j < o then l[j]? else if j < o + d.length then d[j - o]? else l[j]? := by
  unfold writeRange
  have hto : (l.take o).length = o := by simp; omega
  by_cases h1 : j < o
  · rw [List.getElem?_append]
    rw [if_pos (by simp [hto]; omega)]
    rw [List.getElem?_append]
    simp [hto, h1, List.getElem?_take]
  · by_cases h2 : j < o + d.length
    · rw [List.getElem?_append]
      rw [if_pos (by simp [hto]; omega)]
      rw [List.getElem?_append]
      simp [hto, h1, h2]
    · rw [List.getElem?_append]
      rw [if_neg (by simp [hto]; omega)]
      simp only [List.length_append, hto, List.getElem?_drop]
      rw [if_neg h1, if_neg h2]
      congr 1
      omega

theorem segment_writeRange_left (l : List Nat) (o : Nat) (d : List Nat)
    (h : o + d.length ≤ l.length) (o' n : Nat) (hlt : o' + n ≤ o) :
    segment (writeRange l o d) o' n = segment l o' n := by
  apply List.ext_getElem?
  intro i
  rw [segment_getElem?, segment_getElem?]
  by_cases hi : i < n
  · simp only [hi, if_pos]
    rw [writeRange_getElem? l o d h]
    have : o' + i < o := by omega
    simp [this]
  · simp [hi]

theorem segment_writeRange_right (l : List Nat) (o : Nat) (d : List Nat)
    (h : o + d.length ≤ l.length) (o' n : Nat) (hge : o + d.length ≤ o') :
    segment (writeRange l o d) o' n = segment l o' n := by
  apply List.ext_getElem?
  intro i
  rw [segment_getElem?, segment_getElem?]
  by_cases hi : i < n
  · simp only [hi, if_pos]
    rw [writeRange_getElem? l o d h]
    have h1 : ¬ (o' + i < o) := by omega
    have h2 : ¬ (o' + i < o + d.length) := by omega
    simp [h1, h2]
  · simp [hi]

theorem segment_writeRange_self (l : List Nat) (o : Nat) (d : List Nat)
    (h : o + d.length ≤ l.length) :
    segment (writeRange l o d) o d.length = d := by
  apply List.ext_getElem?
  intro i
  rw [segment_getElem?]
  by_cases hi : i < d.length
  · simp only [hi, if_pos]
    rw [writeRange_getElem? l o d h]
    have h1 : ¬ (o + i < o) := by omega
    have h2 : o + i < o + d.length := by omega
    simp [h1, h2]
  · simp [hi, (List.getElem?_eq_none (by omega) : d[i]? = none)]

theorem length_padTo (l : List Nat) (n : Nat) (h : l.length ≤ n) :
    (padTo l n).length = n := by
  simp [padTo]; omega

theorem padTo_getElem? (l : List Nat) (n j : Nat) :
    (padTo l n)[j]? =
      if j < l.length then l[j]? else if j < n then some 0 else none := by
  unfold padTo
  rw [List.getElem?_append]
  by_cases h1 : j < l.length
  · simp [h1]
  · rw [if_neg h1, if_neg h1]
    by_cases h2 : j < n
    · simp only [List.getElem?_replicate]
      rw [if_pos (by omega), if_pos h2]
    · simp only [List.getElem?_replicate]
      rw [if_neg (by omega), if_neg h2]

theorem length_writeAt (f : List Nat) (o : Nat) (d : List Nat) :
    (writeAt f o d).length = max (o + d.length) f.length := by
  simp [writeAt]; omega

theorem writeAt_getElem? (f : List Nat) (o : Nat) (d : List Nat) (j : Nat) :
    (writeAt f o d)[j]? =
      if j < o then (if j < f.length then f[j]? else some 0)
      else if j < o + d.length then d[j - o]?
      else f[j]? := by
  unfold writeAt
  simp only [List.getElem?_append, List.length_append, List.length_take,
    List.length_replicate, List.getElem?_take, List.getElem?_drop, List.getElem?_replicate]
  split_ifs <;> first
    | rfl
    | omega
    | (congr 1; omega)

theorem segment_writeAt_self (f : List Nat) (o : Nat) (d : List Nat) :
    segment (writeAt f o d) o d.length = d := by
  apply List.ext_getElem?
  intro i
  rw [segment_getElem?]
  by_cases hi : i < d.length
  · rw [if_pos hi, writeAt_getElem?]
    rw [if_neg (by omega), if_pos (by omega)]
    congr 1
    omega
  · rw [if_neg hi, eq_comm]
    exact List.getElem?_eq_none (by omega)

theorem segment_writeAt_self_of_length (f : List Nat) (o n : Nat) (d : List Nat)
    (hd : d.length = n) : segment (writeAt f o d) o n = d := by
  subst hd
  exact segment_writeAt_self f o d

theorem segment_writeAt_below (f : List Nat) (o : Nat) (d : List Nat)
    (o' n : Nat) (hn : o' + n ≤ o) (hlen : o' + n ≤ f.length) :
    segment (writeAt f o d) o' n = segment f o' n := by
  apply List.ext_getElem?
  intro i
  rw [segment_getElem?, segment_getElem?]
  by_cases hi : i < n
  · simp only [hi, if_pos]
    rw [writeAt_getElem?]
    rw [if_pos (by omega), if_pos (by omega)]
  · simp [hi]

theorem testBit_add_mul_two_pow (a b k i : Nat) (ha : a < 2 ^ k) :
    (a + b * 2 ^ k).testBit i = if i < k then a.testBit i else b.testBit (i - k) := by
  rcases Nat.lt_or_ge i k with h | h
  · rw [if_pos h]
    rw [Nat.testBit_to_div_mod, Nat.testBit_to_div_mod]
    have hsplit : b * 2 ^ k = b * 2 ^ (k - i) * 2 ^ i := by
      rw [mul_assoc, ← pow_add]
      congr 2
      omega
    have h2 : (a + b * 2 ^ k) / 2 ^ i = a / 2 ^ i + b * 2 ^ (k - i) := by
      rw [hsplit, Nat.add_mul_div_right _ _ (Nat.pos_pow_of_pos i (by norm_num))]
    rw [h2]
    have hdvd : (2:Nat) ∣ 2 ^ (k - i) := dvd_pow_self 2 (by omega)
    obtain ⟨c, hc⟩ := hdvd
    have h3 : (a / 2 ^ i + b * 2 ^ (k - i)) % 2 = a / 2 ^ i % 2 := by
      rw [hc, show b * (2 * c) = b * c * 2 by ring, Nat.add_mul_mod_self_right]
    rw [h3]
  · rw [if_neg (by omega)]
    rw [Nat.testBit_to_div_mod, Nat.testBit_to_div_mod]
    have hik : (2:Nat) ^ i = 2 ^ k * 2 ^ (i - k) := by
      rw [← pow_add]
      congr 1
      omega
    have h2 : (a + b * 2 ^ k) / 2 ^ i = b / 2 ^ (i - k) := by
      rw [hik, ← Nat.div_div_eq_div_mul]
      have hk : (a + b * 2 ^ k) / 2 ^ k = b := by
        rw [Nat.add_mul_div_right _ _ (Nat.pos_pow_of_pos k (by norm_num)),
          Nat.div_eq_of_lt ha, Nat.zero_add]
      rw [hk]
    rw [h2]

/-- XOR-ing a shifted value onto low bits is addition when the ranges are
disjoint (the deserializer rebuilds the id with XOR of shifted bytes). -/
theorem xor_shift_eq_add (a b k : Nat) (ha : a < 2 ^ k) :
    a ^^^ (b <<< k) = a + b * 2 ^ k := by
  apply Nat.eq_of_testBit_eq
  intro i
  rw [Nat.testBit_xor, Nat.testBit_shiftLeft, testBit_add_mul_two_pow a b k i ha]
  rcases Nat.lt_or_ge i k with h | h
  · simp [Nat.not_le.mpr h, h]
  · have hfa : a.testBit i = false :=
      Nat.testBit_eq_false_of_lt (lt_of_lt_of_le ha (Nat.pow_le_pow_right (by norm_num) h))
    simp [h, Nat.not_lt.mpr h, hfa]

/-- Recombining the four little-endian bytes of a `u32` yields it back. -/
theorem recombine_bytes (n : Nat) (h : n < 2 ^ 32) :
    (n % 256) ^^^ (((n >>> 8) % 256) <<< 8) ^^^ (((n >>> 16) % 256) <<< 16)
      ^^^ (((n >>> 24) % 256) <<< 24) = n := by
  have p8 : (2:Nat) ^ 8 = 256 := by norm_num
  have p16 : (2:Nat) ^ 16 = 65536 := by norm_num
  have p24 : (2:Nat) ^ 24 = 16777216 := by norm_num
  have h32 : n < 4294967296 := by
    have : (2:Nat) ^ 32 = 4294967296 := by norm_num
    omega
  rw [xor_shift_eq_add _ _ 8 (by omega)]
  rw [xor_shift_eq_add _ _ 16 (by rw [p16]; omega)]
  rw [xor_shift_eq_add _ _ 24 (by rw [p24]; omega)]
  rw [p8, p16, p24]
  rw [Nat.shiftRight_eq_div_pow, Nat.shiftRight_eq_div_pow, Nat.shiftRight_eq_div_pow,
    p8, p16, p24]
  omega

theorem length_serialize (r : Row) (data out : List Nat)
    (h : r.serialize data = some out) : out.length = data.length := by
  unfold Row.serialize at h
  split at h
  · next hle =>
    cases h
    simp
    omega
  · cases h

/-- Round trip at the codec level: deserializing right after
serializing a valid record recovers it, whatever the 291-byte buffer
held before. -/
theorem deserialize_serialize (r : Row) (data : List Nat)
    (hv : r.valid) (hlen : ROW_SIZE ≤ data.length) :
    ∃ out, r.serialize data = some out ∧ Row.deserialize out = some r := by
  obtain ⟨rid, ru, re⟩ := r
  obtain ⟨hid, hu, he, hu8, he8⟩ := hv
  simp only [USERID_SIZE, EMAIL_SIZE] at hu he
  have hle : 6 + ru.length + re.length ≤ data.length := by
    have h291 : ROW_SIZE = 291 := rfl
    omega
  have humod : ru.length % 256 = ru.length := Nat.mod_eq_of_lt (by omega)
  have hemod : re.length % 256 = re.length := Nat.mod_eq_of_lt (by omega)
  have hser : Row.serialize ⟨rid, ru, re⟩ data = some
      (rid % 256 :: (rid >>> 8) % 256 :: (rid >>> 16) % 256 ::
        (rid >>> 24) % 256 :: ru.length % 256 :: re.length % 256 ::
        (ru ++ (re ++ data.drop (6 + ru.length + re.length)))) := by
    unfold Row.serialize
    rw [if_pos hle]
    simp only [List.cons_append, List.nil_append, List.append_assoc]
  refine ⟨_, hser, ?_⟩
  have hrest : ru.length % 256 + re.length % 256 ≤
      (ru ++ (re ++ data.drop (6 + ru.length + re.length))).length := by
    simp only [List.length_append, humod, hemod]
    omega
  have htake : (ru ++ (re ++
      data.drop (6 + ru.length + re.length))).take (ru.length % 256) = ru := by
    rw [humod, List.take_left]
  have hseg : segment (ru ++ (re ++
      data.drop (6 + ru.length + re.length))) (ru.length % 256) (re.length % 256) = re := by
    unfold segment
    rw [humod, hemod, List.drop_left, List.take_append_of_le_length (by simp),
      List.take_length]
  simp only [Row.deserialize]
  rw [if_pos hrest, htake, hseg, hu8, he8]
  simp only [Bool.and_self, if_true, Option.some.injEq, Row.mk.injEq]
  exact ⟨recombine_bytes rid hid, trivial, trivial⟩

theorem getD_eq_get (ps : List (List Nat)) (n : Nat) (h : n < ps.length) :
    ps.getD n [] = ps.get ⟨n, h⟩ := by
  rw [List.getD_eq_getElem?_getD, List.getElem?_eq_getElem h]
  rfl

theorem getD_set_self (ps : List (List Nat)) (n : Nat) (h : n < ps.length)
    (x : List Nat) : (ps.set n x).getD n [] = x := by
  rw [List.getD_eq_getElem?_getD, List.getElem?_set]
  simp [h]

theorem getD_set_ne (ps : List (List Nat)) (n m : Nat) (x : List Nat) (h : n ≠ m) :
    (ps.set n x).getD m [] = ps.getD m [] := by
  rw [List.getD_eq_getElem?_getD, List.getElem?_set, if_neg h,
    ← List.getD_eq_getElem?_getD]

theorem set_getD_self (ps : List (List Nat)) (n : Nat) :
    ps.set n (ps.getD n []) = ps := by
  apply List.ext_getElem?
  intro j
  rw [List.getElem?_set]
  by_cases hnj : n = j
  · subst hnj
    by_cases hlt : n < ps.length
    · rw [if_pos rfl, if_pos hlt, List.getD_eq_getElem?_getD,
        List.getElem?_eq_getElem hlt]
      rfl
    · rw [if_pos rfl, if_neg hlt, eq_comm]
      exact List.getElem?_eq_none (by omega)
  · rw [if_neg hnj]

theorem PagesWF.getD_cases {ps : List (List Nat)} (h : PagesWF ps) (n : Nat) :
    (ps.getD n []).length = 0 ∨ (ps.getD n []).length = PAGE_SIZE := by
  by_cases hlt : n < ps.length
  · rw [getD_eq_get ps n hlt]
    exact h _ (ps.get_mem n hlt)
  · rw [List.getD_eq_getElem?_getD, List.getElem?_eq_none (by omega)]
    left
    rfl

theorem length_loadPage (file : List Nat) (n : Nat) :
    (loadPage file n).length = PAGE_SIZE := by
  unfold loadPage
  apply length_padTo
  rw [length_segment]
  omega

theorem length_pageView (p : Pager) (n : Nat) (hwf : PagesWF p.pages) :
    (p.pageView n).length = PAGE_SIZE := by
  unfold Pager.pageView
  rcases hwf.getD_cases n with h0 | h4
  · rw [if_pos h0]
    exact length_loadPage p.file n
  · have : ¬ (p.pages.getD n []).length = 0 := by
      rw [h4]
      decide
    rw [if_neg this]
    exact h4

theorem loadPage_of_out_of_extent (file : List Nat) (n : Nat)
    (h : file.length ≤ n * PAGE_SIZE) :
    loadPage file n = List.replicate PAGE_SIZE 0 := by
  unfold loadPage padTo segment
  rw [List.drop_eq_nil_of_le h]
  simp

theorem readExact_loadPage (file : List Nat) (n : Nat)
    (hn : n < file.length / PAGE_SIZE +
      (if file.length % PAGE_SIZE ≠ 0 then 1 else 0)) :
    readExact file (n * PAGE_SIZE)
      (if file.length < n * PAGE_SIZE + PAGE_SIZE
       then file.length - n * PAGE_SIZE else PAGE_SIZE)
      (List.replicate PAGE_SIZE 0) = some (loadPage file n) := by
  have h4096 : PAGE_SIZE = 4096 := rfl
  have hstart : n * PAGE_SIZE ≤ file.length := by
    rw [h4096] at hn ⊢
    by_cases hmod : file.length % 4096 ≠ 0
    · rw [if_pos hmod] at hn
      have : n ≤ file.length / 4096 := by omega
      calc n * 4096 ≤ (file.length / 4096) * 4096 := by omega
        _ ≤ file.length := by omega
    · rw [if_neg hmod] at hn
      have : n + 1 ≤ file.length / 4096 := by omega
      calc n * 4096 ≤ (file.length / 4096) * 4096 - 4096 := by omega
        _ ≤ file.length := by omega
  unfold readExact loadPage padTo
  by_cases hshort : file.length < n * PAGE_SIZE + PAGE_SIZE
  · rw [if_pos hshort, if_pos (by omega)]
    have hdlen : (file.drop (n * PAGE_SIZE)).length = file.length - n * PAGE_SIZE := by
      simp
    have hseg1 : segment file (n * PAGE_SIZE) (file.length - n * PAGE_SIZE)
        = file.drop (n * PAGE_SIZE) := by
      unfold segment
      exact List.take_of_length_le (by omega)
    have hseg2 : segment file (n * PAGE_SIZE) PAGE_SIZE = file.drop (n * PAGE_SIZE) := by
      unfold segment
      exact List.take_of_length_le (by omega)
    rw [hseg1, hseg2, List.drop_replicate, hdlen]
  · rw [if_neg hshort, if_pos (by omega)]
    have hseglen : (segment file (n * PAGE_SIZE) PAGE_SIZE).length = PAGE_SIZE := by
      rw [length_segment]
      omega
    rw [List.drop_replicate, hseglen]

/-- Running `Pager::get` under the pager invariant, at an in-bounds page index:
it succeeds, returns exactly the page view, and the only state change
is that the page is now resident with that content. -/
theorem Pager.get_spec (p : Pager) (n : Nat) (hwf : PagerWF p) (hn : n < TABLE_MAX_PAGES) :
    p.get n = some ({ p with pages := p.pages.set n (p.pageView n) }, p.pageView n) := by
  obtain ⟨hplen, hflen, hpwf⟩ := hwf
  have h100 : TABLE_MAX_PAGES = 100 := rfl
  have hlt : n < p.pages.length := by omega
  unfold Pager.get
  rw [if_neg (by omega), dif_pos hlt]
  by_cases hres : (p.pages.get ⟨n, hlt⟩).length = 0
  · rw [if_pos hres]
    have hview : p.pageView n = loadPage p.file n := by
      unfold Pager.pageView
      rw [if_pos (by rw [getD_eq_get p.pages n hlt]; exact hres)]
    by_cases hext : n < p.file_length / PAGE_SIZE +
        (if p.file_length % PAGE_SIZE ≠ 0 then 1 else 0)
    · rw [if_pos hext]
      rw [← hflen] at hext
      rw [show p.file_length = p.file.length from hflen.symm]
      rw [readExact_loadPage p.file n hext, hview]
    · rw [if_neg hext]
      have hout : p.file.length ≤ n * PAGE_SIZE := by
        have h4096 : PAGE_SIZE = 4096 := rfl
        rw [h4096] at hext ⊢
        rw [hflen]
        by_cases hmod : p.file_length % 4096 ≠ 0
        · rw [if_pos hmod] at hext
          have h1 : p.file_length / 4096 + 1 ≤ n := by omega
          have h2 : p.file_length < (p.file_length / 4096 + 1) * 4096 := by omega
          calc p.file_length ≤ (p.file_length / 4096 + 1) * 4096 := by omega
            _ ≤ n * 4096 := by
              exact Nat.mul_le_mul_right _ h1
        · rw [if_neg hmod] at hext
          have h1 : p.file_length / 4096 ≤ n := by omega
          calc p.file_length = (p.file_length / 4096) * 4096 := by omega
            _ ≤ n * 4096 := Nat.mul_le_mul_right _ h1
      rw [hview, loadPage_of_out_of_extent p.file n hout]
  · rw [if_neg hres]
    have hview : p.pageView n = p.pages.get ⟨n, hlt⟩ := by
      unfold Pager.pageView
      rw [getD_eq_get p.pages n hlt, if_neg hres]
    rw [hview]
    have hset : p.pages.set n (p.pages.get ⟨n, hlt⟩) = p.pages := by
      conv_lhs => rw [← getD_eq_get p.pages n hlt]
      exact set_getD_self p.pages n
    rw [hset]

/-- Running `Pager::get` panics exactly at page indices `≥ TABLE_MAX_PAGES`
(explicitly for `> 100`, via the vector index for `= 100`). -/
theorem Pager.get_none (p : Pager) (n : Nat)
    (hplen : p.pages.length = TABLE_MAX_PAGES) (hn : TABLE_MAX_PAGES ≤ n) :
    p.get n = none := by
  have h100 : TABLE_MAX_PAGES = 100 := rfl
  unfold Pager.get
  by_cases h : n > TABLE_MAX_PAGES
  · rw [if_pos h]
  · rw [if_neg h, dif_neg (by omega)]

theorem PagesWF_set (ps : List (List Nat)) (n : Nat) (x : List Nat)
    (hwf : PagesWF ps) (hx : x.length = PAGE_SIZE) : PagesWF (ps.set n x) := by
  intro pg hpg
  rcases List.mem_or_eq_of_mem_set hpg with h | h
  · exact hwf pg h
  · right
    rw [h, hx]

theorem pageView_eq_of_getD (p2 p : Pager) (m : Nat)
    (hfile : p2.file = p.file)
    (hgetD : p2.pages.getD m [] = p.pages.getD m []) :
    p2.pageView m = p.pageView m := by
  unfold Pager.pageView
  rw [hgetD, hfile]

theorem pageView_resident (p : Pager) (m : Nat)
    (h : ¬ (p.pages.getD m []).length = 0) :
    p.pageView m = p.pages.getD m [] := by
  unfold Pager.pageView
  rw [if_neg h]

theorem PagerWF_after_get (p : Pager) (n : Nat) (hwf : PagerWF p) :
    PagerWF { p with pages := p.pages.set n (p.pageView n) } := by
  refine ⟨?_, hwf.file_len, ?_⟩
  · rw [List.length_set]
    exact hwf.pages_len
  · exact PagesWF_set _ _ _ hwf.pages_wf (length_pageView p n hwf.pages_wf)

theorem pageView_after_get (p : Pager) (n : Nat) (hwf : PagerWF p)
    (hn : n < p.pages.length) (m : Nat) :
    Pager.pageView { p with pages := p.pages.set n (p.pageView n) } m = p.pageView m := by
  by_cases hnm : n = m
  · subst hnm
    have hres : ¬ ((p.pages.set n (p.pageView n)).getD n []).length = 0 := by
      rw [getD_set_self _ _ hn, length_pageView p n hwf.pages_wf]
      decide
    rw [pageView_resident _ _ hres, getD_set_self _ _ hn]
  · exact pageView_eq_of_getD _ _ _ rfl (getD_set_ne _ _ _ _ hnm)

/-- Running `Table::get_row` at an in-capacity row index: succeeds, returns the
row's page/offset location and its 291-byte window, and only
materializes the row's page. -/
theorem Table.get_row_spec (t : Table) (i : Nat) (hwf : PagerWF t.pager)
    (hi : i / ROWS_PER_PAGE < TABLE_MAX_PAGES) :
    t.get_row i = some (Except.ok
      ({ t with pager := { t.pager with
            pages := t.pager.pages.set (i / ROWS_PER_PAGE)
              (t.pager.pageView (i / ROWS_PER_PAGE)) } },
        i / ROWS_PER_PAGE, (i % ROWS_PER_PAGE) * ROW_SIZE, t.slotView i)) := by
  unfold Table.get_row
  rw [if_neg (by omega)]
  rw [Pager.get_spec t.pager (i / ROWS_PER_PAGE) hwf hi]
  dsimp only
  have hbound : (i % ROWS_PER_PAGE) * ROW_SIZE + ROW_SIZE ≤
      (t.pager.pageView (i / ROWS_PER_PAGE)).length := by
    rw [length_pageView _ _ hwf.pages_wf]
    have h14 : ROWS_PER_PAGE = 14 := rfl
    have h291 : ROW_SIZE = 291 := rfl
    have h4096 : PAGE_SIZE = 4096 := rfl
    have : i % ROWS_PER_PAGE < 14 := by
      rw [h14]
      exact Nat.mod_lt _ (by norm_num)
    rw [h14, h291, h4096] at *
    omega
  rw [if_pos hbound]
  rfl

/-- Running `Table::get_row` fails with `TableFull` (before touching the pager)
as soon as the row's page index reaches `TABLE_MAX_PAGES`. -/
theorem Table.get_row_full (t : Table) (i : Nat)
    (hi : TABLE_MAX_PAGES ≤ i / ROWS_PER_PAGE) :
    t.get_row i = some (Except.error DbError.TableFull) := by
  unfold Table.get_row
  rw [if_pos hi]

/-- Running `Table::add_row` below capacity on a valid record: succeeds,
increments `num_rows` by one, rewrites only the new row's 291-byte
window of its page (its decode gives the record back), leaves every
other row window, the file, and all other pages untouched, and keeps
the pager invariant. -/
theorem Table.add_row_spec (t : Table) (r : Row) (hwf : PagerWF t.pager)
    (hrows : t.num_rows < TABLE_MAX_ROWS) (hv : r.valid) :
    ∃ t2, t.add_row r = some (t2, none) ∧
      t2.num_rows = t.num_rows + 1 ∧
      PagerWF t2.pager ∧
      t2.pager.file = t.pager.file ∧
      t2.pager.file_length = t.pager.file_length ∧
      Row.deserialize (t2.slotView t.num_rows) = some r ∧
      (∀ j, j ≠ t.num_rows → t2.slotView j = t.slotView j) ∧
      (∀ m, (t.pager.pages.getD m []).length = PAGE_SIZE →
        (t2.pager.pages.getD m []).length = PAGE_SIZE) ∧
      (t2.pager.pages.getD (t.num_rows / ROWS_PER_PAGE) []).length = PAGE_SIZE ∧
      (∀ m, m ≠ t.num_rows / ROWS_PER_PAGE →
        t2.pager.pages.getD m [] = t.pager.pages.getD m []) ∧
      (∃ s2, r.serialize (t.slotView t.num_rows) = some s2 ∧
        t2.slotView t.num_rows = s2) := by
  have h14 : ROWS_PER_PAGE = 14 := rfl
  have h291 : ROW_SIZE = 291 := rfl
  have h100 : TABLE_MAX_PAGES = 100 := rfl
  have h1400 : TABLE_MAX_ROWS = 1400 := rfl
  have h4096 : PAGE_SIZE = 4096 := rfl
  have hi : t.num_rows / ROWS_PER_PAGE < TABLE_MAX_PAGES := by
    rw [h1400] at hrows
    rw [h14, h100]
    omega
  have hmod : t.num_rows % ROWS_PER_PAGE < 14 := by
    rw [h14]
    exact Nat.mod_lt _ (by norm_num)
  have hpvlen : (t.pager.pageView (t.num_rows / ROWS_PER_PAGE)).length = PAGE_SIZE :=
    length_pageView _ _ hwf.pages_wf
  have hoffb : (t.num_rows % ROWS_PER_PAGE) * ROW_SIZE + ROW_SIZE ≤
      (t.pager.pageView (t.num_rows / ROWS_PER_PAGE)).length := by
    rw [hpvlen, h14, h291, h4096]
    rw [h14] at hmod
    omega
  have hslotlen : (t.slotView t.num_rows).length = ROW_SIZE := by
    unfold Table.slotView
    exact length_segment_of_le _ _ _ hoffb
  obtain ⟨slot2, hser, hdes⟩ :=
    deserialize_serialize r (t.slotView t.num_rows) hv (by rw [hslotlen])
  have hplen : t.num_rows / ROWS_PER_PAGE < t.pager.pages.length := by
    rw [hwf.pages_len]
    exact hi
  have hslot2len : slot2.length = ROW_SIZE := by
    rw [length_serialize r _ _ hser, hslotlen]
  have hwrb : (t.num_rows % ROWS_PER_PAGE) * ROW_SIZE + slot2.length ≤
      (t.pager.pageView (t.num_rows / ROWS_PER_PAGE)).length := by
    rw [hslot2len]
    exact hoffb
  have hnewlen : (writeRange (t.pager.pageView (t.num_rows / ROWS_PER_PAGE))
      ((t.num_rows % ROWS_PER_PAGE) * ROW_SIZE) slot2).length = PAGE_SIZE := by
    rw [length_writeRange _ _ _ hwrb, hpvlen]
  unfold Table.add_row
  rw [Table.get_row_spec t t.num_rows hwf hi]
  dsimp only
  rw [hser]
  dsimp only
  unfold Table.writeSlot
  have hplen2 : t.num_rows / ROWS_PER_PAGE <
      (t.pager.pages.set (t.num_rows / ROWS_PER_PAGE)
        (t.pager.pageView (t.num_rows / ROWS_PER_PAGE))).length := by
    rw [List.length_set]
    exact hplen
  rw [dif_pos hplen2]
  dsimp only
  have hget2 : (t.pager.pages.set (t.num_rows / ROWS_PER_PAGE)
      (t.pager.pageView (t.num_rows / ROWS_PER_PAGE))).get
        ⟨t.num_rows / ROWS_PER_PAGE, hplen2⟩ =
      t.pager.pageView (t.num_rows / ROWS_PER_PAGE) := by
    rw [← getD_eq_get _ _ hplen2]
    exact getD_set_self _ _ hplen _
  rw [hget2, List.set_set]
  refine ⟨_, rfl, rfl, ?_, rfl, rfl, ?_, ?_, ?_, ?_, ?_, ?_⟩
  · refine ⟨?_, hwf.file_len, ?_⟩
    · rw [List.length_set]
      exact hwf.pages_len
    · exact PagesWF_set _ _ _ hwf.pages_wf hnewlen
  · show Row.deserialize (Table.slotView _ t.num_rows) = some r
    unfold Table.slotView
    have hres : Pager.pageView
        { file := t.pager.file, file_length := t.pager.file_length,
          pages := t.pager.pages.set (t.num_rows / ROWS_PER_PAGE)
            (writeRange (t.pager.pageView (t.num_rows / ROWS_PER_PAGE))
              ((t.num_rows % ROWS_PER_PAGE) * ROW_SIZE) slot2) }
        (t.num_rows / ROWS_PER_PAGE) =
        writeRange (t.pager.pageView (t.num_rows / ROWS_PER_PAGE))
          ((t.num_rows % ROWS_PER_PAGE) * ROW_SIZE) slot2 := by
      rw [pageView_resident, getD_set_self _ _ hplen]
      rw [getD_set_self _ _ hplen, hnewlen, h4096]
      decide
    rw [hres]
    have hself := segment_writeRange_self
      (t.pager.pageView (t.num_rows / ROWS_PER_PAGE))
      ((t.num_rows % ROWS_PER_PAGE) * ROW_SIZE) slot2 hwrb
    rw [hslot2len] at hself
    rw [hself]
    exact hdes
  · intro j hj
    unfold Table.slotView
    by_cases hpage : j / ROWS_PER_PAGE = t.num_rows / ROWS_PER_PAGE
    · rw [hpage]
      have hres : Pager.pageView
          { file := t.pager.file, file_length := t.pager.file_length,
            pages := t.pager.pages.set (t.num_rows / ROWS_PER_PAGE)
              (writeRange (t.pager.pageView (t.num_rows / ROWS_PER_PAGE))
                ((t.num_rows % ROWS_PER_PAGE) * ROW_SIZE) slot2) }
          (t.num_rows / ROWS_PER_PAGE) =
          writeRange (t.pager.pageView (t.num_rows / ROWS_PER_PAGE))
            ((t.num_rows % ROWS_PER_PAGE) * ROW_SIZE) slot2 := by
        rw [pageView_resident, getD_set_self _ _ hplen]
        rw [getD_set_self _ _ hplen, hnewlen, h4096]
        decide
      rw [hres]
      have hjmod : j % ROWS_PER_PAGE ≠ t.num_rows % ROWS_PER_PAGE := by
        rw [h14]
        rw [h14] at hpage
        intro he
        apply hj
        omega
      rcases Nat.lt_or_ge (j % ROWS_PER_PAGE) (t.num_rows % ROWS_PER_PAGE) with hlt | hge
      · rw [segment_writeRange_left _ _ _ hwrb]
        rw [h291] at *
        omega
      · rw [segment_writeRange_right _ _ _ hwrb]
        rw [hslot2len, h291] at *
        omega
    · have hview : Pager.pageView
          { file := t.pager.file, file_length := t.pager.file_length,
            pages := t.pager.pages.set (t.num_rows / ROWS_PER_PAGE)
              (writeRange (t.pager.pageView (t.num_rows / ROWS_PER_PAGE))
                ((t.num_rows % ROWS_PER_PAGE) * ROW_SIZE) slot2) }
          (j / ROWS_PER_PAGE) = t.pager.pageView (j / ROWS_PER_PAGE) := by
        refine pageView_eq_of_getD _ _ _ ?_ ?_
        · rfl
        · exact getD_set_ne _ _ _ _ (fun he => hpage he.symm)
      rw [hview]
  · intro m hm
    by_cases hmp : m = t.num_rows / ROWS_PER_PAGE
    · subst hmp
      rw [getD_set_self _ _ hplen]
      exact hnewlen
    · rw [getD_set_ne _ _ _ _ (fun he => hmp he.symm)]
      exact hm
  · rw [getD_set_self _ _ hplen]
    exact hnewlen
  · intro m hm
    exact getD_set_ne _ _ _ _ (fun he => hm he.symm)
  · refine ⟨slot2, rfl, ?_⟩
    show Table.slotView _ t.num_rows = slot2
    unfold Table.slotView
    have hres : Pager.pageView
        { file := t.pager.file, file_length := t.pager.file_length,
          pages := t.pager.pages.set (t.num_rows / ROWS_PER_PAGE)
            (writeRange (t.pager.pageView (t.num_rows / ROWS_PER_PAGE))
              ((t.num_rows % ROWS_PER_PAGE) * ROW_SIZE) slot2) }
        (t.num_rows / ROWS_PER_PAGE) =
        writeRange (t.pager.pageView (t.num_rows / ROWS_PER_PAGE))
          ((t.num_rows % ROWS_PER_PAGE) * ROW_SIZE) slot2 := by
      rw [pageView_resident, getD_set_self _ _ hplen]
      rw [getD_set_self _ _ hplen, hnewlen, h4096]
      decide
    rw [hres]
    have hself := segment_writeRange_self
      (t.pager.pageView (t.num_rows / ROWS_PER_PAGE))
      ((t.num_rows % ROWS_PER_PAGE) * ROW_SIZE) slot2 hwrb
    rw [hslot2len] at hself
    rw [hself]

/-- Running `Table::add_row` at (or beyond) capacity: `get_row` already fails
with `TableFull` on row index `num_rows ≥ 1400`, so the record is
rejected and the table is returned exactly as it was. -/
theorem Table.add_row_full (t : Table) (r : Row) (h : TABLE_MAX_ROWS ≤ t.num_rows) :
    t.add_row r = some (t, some DbError.TableFull) := by
  have h14 : ROWS_PER_PAGE = 14 := rfl
  have h100 : TABLE_MAX_PAGES = 100 := rfl
  have h1400 : TABLE_MAX_ROWS = 1400 := rfl
  unfold Table.add_row
  rw [Table.get_row_full t t.num_rows (by rw [h14, h100]; rw [h1400] at h; omega)]

/-- Scanning a list of in-capacity row indices whose windows decode:
the scan succeeds, returns exactly the decoded rows in order, and only
materializes pages (no page content, file byte or `num_rows` change). -/
theorem Table.scanRows_spec (idx : List Nat) (t : Table) (f : Nat → Row)
    (hwf : PagerWF t.pager)
    (hidx : ∀ i ∈ idx, i / ROWS_PER_PAGE < TABLE_MAX_PAGES)
    (hrows : ∀ i ∈ idx, Row.deserialize (t.slotView i) = some (f i)) :
    ∃ t2, t.scanRows idx = some (t2, Except.ok (idx.map f)) ∧
      PagerWF t2.pager ∧
      t2.num_rows = t.num_rows ∧
      t2.pager.file = t.pager.file ∧
      t2.pager.file_length = t.pager.file_length ∧
      (∀ m, t2.pager.pageView m = t.pager.pageView m) ∧
      (∀ m, (t.pager.pages.getD m []).length = PAGE_SIZE →
        (t2.pager.pages.getD m []).length = PAGE_SIZE) := by
  induction idx generalizing t with
  | nil => exact ⟨t, rfl, hwf, rfl, rfl, rfl, fun _ => rfl, fun _ h => h⟩
  | cons i is ih =>
    have hi := hidx i (List.mem_cons_self i is)
    have hplen : i / ROWS_PER_PAGE < t.pager.pages.length := by
      rw [hwf.pages_len]
      exact hi
    have hwf2 : PagerWF { t.pager with
        pages := t.pager.pages.set (i / ROWS_PER_PAGE)
          (t.pager.pageView (i / ROWS_PER_PAGE)) } :=
      PagerWF_after_get t.pager (i / ROWS_PER_PAGE) hwf
    have hview2 : ∀ m, Pager.pageView { t.pager with
        pages := t.pager.pages.set (i / ROWS_PER_PAGE)
          (t.pager.pageView (i / ROWS_PER_PAGE)) } m = t.pager.pageView m :=
      pageView_after_get t.pager (i / ROWS_PER_PAGE) hwf hplen
    have hslot2 : ∀ j, Table.slotView { t with pager := { t.pager with
        pages := t.pager.pages.set (i / ROWS_PER_PAGE)
          (t.pager.pageView (i / ROWS_PER_PAGE)) } } j = t.slotView j := by
      intro j
      unfold Table.slotView
      rw [hview2]
    obtain ⟨t2, hscan, hwfr, hnum, hfile, hflen, hviewr, hmono⟩ :=
      ih { t with pager := { t.pager with
          pages := t.pager.pages.set (i / ROWS_PER_PAGE)
            (t.pager.pageView (i / ROWS_PER_PAGE)) } }
        hwf2
        (fun j hj => hidx j (List.mem_cons_of_mem i hj))
        (fun j hj => by rw [hslot2]; exact hrows j (List.mem_cons_of_mem i hj))
    refine ⟨t2, ?_, hwfr, hnum, hfile, hflen,
      fun m => (hviewr m).trans (hview2 m), ?_⟩
    · show Table.scanRows t (i :: is) = _
      unfold Table.scanRows
      rw [Table.get_row_spec t i hwf hi]
      dsimp only
      rw [hrows i (List.mem_cons_self i is)]
      dsimp only
      rw [hscan]
      rfl
    · intro m hm
      apply hmono
      by_cases hmp : m = i / ROWS_PER_PAGE
      · subst hmp
        rw [getD_set_self _ _ hplen]
        exact length_pageView _ _ hwf.pages_wf
      · rw [getD_set_ne _ _ _ _ (fun he => hmp he.symm)]
        exact hm

theorem represents_empty : Represents (Table.db_open []) [] := by
  refine ⟨⟨?_, ?_, ?_⟩, ?_, ?_, ?_, ?_⟩
  · simp [Table.db_open, Pager.open]
  · simp [Table.db_open, Pager.open]
  · intro pg hpg
    left
    unfold Table.db_open Pager.open at hpg
    simp only [List.mem_replicate] at hpg
    rw [hpg.2]
    rfl
  · rfl
  · rfl
  · intro i hi
    exact absurd hi (by simp)
  · intro p hp
    exact absurd hp (by simp)

theorem represents_add (t : Table) (rs : List Row) (r : Row)
    (hrep : Represents t rs) (hv : r.valid) (hlen : rs.length < TABLE_MAX_ROWS) :
    ∃ t2, t.add_row r = some (t2, none) ∧ Represents t2 (rs ++ [r]) := by
  have hrows : t.num_rows < TABLE_MAX_ROWS := by rw [hrep.count]; exact hlen
  obtain ⟨t2, hadd, hnum, hwf2, hfile, hflen, hdes, hframe, hmono, hresnew, hpframe, hsx⟩ :=
    Table.add_row_spec t r hrep.wf hrows hv
  refine ⟨t2, hadd, hwf2, ?_, ?_, ?_, ?_⟩
  · rw [hfile, hrep.file_nil]
  · rw [hnum, hrep.count, List.length_append, List.length_singleton]
  · intro i hi
    rw [List.length_append, List.length_singleton] at hi
    by_cases hilt : i < rs.length
    · rw [hframe i (by rw [hrep.count]; omega)]
      rw [List.getD_append _ _ _ _ hilt]
      exact hrep.rows i hilt
    · have hieq : i = rs.length := by omega
      subst hieq
      rw [← hrep.count]
      rw [hrep.count, List.getD_append_right _ _ _ _ (le_refl _), Nat.sub_self]
      rw [← hrep.count]
      exact hdes
  · intro p hp
    rw [List.length_append, List.length_singleton] at hp
    by_cases hplt : p * ROWS_PER_PAGE < rs.length
    · exact hmono p (hrep.resident p hplt)
    · have hpeq : p = t.num_rows / ROWS_PER_PAGE := by
        have h14 : ROWS_PER_PAGE = 14 := rfl
        rw [hrep.count, h14]
        rw [h14] at hp hplt
        omega
      rw [hpeq]
      exact hresnew

/-- Appending a list of valid records one by one from a state reached
by earlier appends: all succeed and the invariant extends. -/
theorem Table.addAll_spec (rs : List Row) (t : Table) (pre : List Row)
    (hrep : Represents t pre) (hv : ∀ r ∈ rs, r.valid)
    (hlen : pre.length + rs.length ≤ TABLE_MAX_ROWS) :
    ∃ t2, t.addAll rs = some (t2, none) ∧ Represents t2 (pre ++ rs) := by
  induction rs generalizing t pre with
  | nil => exact ⟨t, rfl, by simpa using hrep⟩
  | cons r rs ih =>
    have hr := hv r (List.mem_cons_self r rs)
    obtain ⟨t2, hadd, hrep2⟩ := represents_add t pre r hrep hr (by
      simp only [List.length_cons] at hlen
      omega)
    obtain ⟨t3, haddAll, hrep3⟩ := ih t2 (pre ++ [r]) hrep2
      (fun x hx => hv x (List.mem_cons_of_mem r hx))
      (by simp only [List.length_append, List.length_singleton, List.length_cons,
            List.length_nil] at hlen ⊢; omega)
    refine ⟨t3, ?_, by simpa using hrep3⟩
    unfold Table.addAll
    rw [hadd]
    exact haddAll

theorem range_map_getD (rs : List Row) :
    (List.range rs.length).map (fun i => rs.getD i ⟨0, [], []⟩) = rs := by
  apply List.ext_getElem?
  intro i
  rw [List.getElem?_map]
  by_cases h : i < rs.length
  · rw [List.getElem?_range h, List.getElem?_eq_getElem h]
    show some (rs.getD i ⟨0, [], []⟩) = some rs[i]
    rw [List.getD_eq_getElem?_getD, List.getElem?_eq_getElem h]
    rfl
  · rw [List.getElem?_eq_none (show (List.range rs.length).length ≤ i by
      rw [List.length_range]; omega)]
    rw [eq_comm]
    exact List.getElem?_eq_none (by omega)

theorem Pager.flush_noop (p : Pager) (n sz : Nat) (hn : n < p.pages.length)
    (hempty : p.pages.getD n [] = []) : p.flush n sz = some p := by
  unfold Pager.flush
  rw [dif_pos hn]
  rw [if_pos (by rw [← getD_eq_get _ _ hn, hempty]; rfl)]

theorem Pager.flush_resident (p : Pager) (n sz : Nat) (hn : n < p.pages.length)
    (hres : ¬ (p.pages.getD n []).length = 0)
    (hsz : sz ≤ (p.pages.getD n []).length) :
    p.flush n sz = some { p with
      file := writeAt p.file (n * PAGE_SIZE) ((p.pages.getD n []).take sz) } := by
  unfold Pager.flush
  rw [dif_pos hn]
  rw [getD_eq_get _ _ hn] at hres hsz
  rw [if_neg hres, if_pos hsz, ← getD_eq_get _ _ hn]

/-- The ascending flush loop: every resident page below `n` ends up
written at its offset in the file, bytes at or beyond `n * PAGE_SIZE`
are untouched, the file never grows past `n * PAGE_SIZE`, the page
slots and captured length are unchanged, and when all pages below `n`
are resident the file length is exactly
`max (old length) (n * PAGE_SIZE)`. -/
theorem Pager.flushUpto_spec (n : Nat) (p : Pager)
    (hwfp : PagesWF p.pages) (hn : n ≤ p.pages.length) :
    ∃ p2, p.flushUpto n = some p2 ∧
      p2.pages = p.pages ∧
      p2.file_length = p.file_length ∧
      p.file.length ≤ p2.file.length ∧
      p2.file.length ≤ max p.file.length (n * PAGE_SIZE) ∧
      (∀ i, i < n → (p.pages.getD i []).length = PAGE_SIZE →
        segment p2.file (i * PAGE_SIZE) PAGE_SIZE = p.pages.getD i [] ∧
        (i + 1) * PAGE_SIZE ≤ p2.file.length) ∧
      (∀ j, n * PAGE_SIZE ≤ j → p2.file[j]? = p.file[j]?) ∧
      ((∀ i, i < n → (p.pages.getD i []).length = PAGE_SIZE) →
        p2.file.length = max p.file.length (n * PAGE_SIZE)) := by
  have hP : PAGE_SIZE = 4096 := rfl
  rw [hP]
  induction n with
  | zero =>
    refine ⟨p, rfl, rfl, rfl, le_refl _, by omega, ?_, fun _ _ => rfl, ?_⟩
    · intro i hi
      omega
    · intro _
      simp
  | succ n ih =>
    obtain ⟨p2, hup, hpages, hflen, hgrow, hbound, hseg, htail, hexact⟩ := ih (by omega)
    have hn' : n < p.pages.length := by omega
    rcases hwfp.getD_cases n with hres0 | hres4
    · -- page n never materialized: flush is a no-op
      have hempty : p.pages.getD n [] = [] := List.eq_nil_of_length_eq_zero hres0
      have hflush : p2.flush n PAGE_SIZE = some p2 :=
        Pager.flush_noop p2 n PAGE_SIZE (by rw [hpages]; exact hn') (by rw [hpages]; exact hempty)
      refine ⟨p2, ?_, hpages, hflen, hgrow, by omega, ?_, ?_, ?_⟩
      · unfold Pager.flushUpto
        rw [hup]
        dsimp only
        rw [hflush]
      · intro i hi hires
        rcases Nat.lt_or_ge i n with hilt | hieq
        · exact hseg i hilt hires
        · have : i = n := by omega
          subst this
          rw [hires] at hres0
          exact absurd hres0 (by omega)
      · intro j hj
        exact htail j (by omega)
      · intro hall
        rw [hall n (by omega)] at hres0
        exact absurd hres0 (by omega)
    · -- page n resident: it is written at offset n * PAGE_SIZE
      have hres4 : (p.pages.getD n []).length = 4096 := by rw [← hP]; exact hres4
      have hreslen : (p2.pages.getD n []).length = 4096 := by rw [hpages]; exact hres4
      have hflush : p2.flush n PAGE_SIZE = some { p2 with
          file := writeAt p2.file (n * PAGE_SIZE) ((p2.pages.getD n []).take PAGE_SIZE) } :=
        Pager.flush_resident p2 n PAGE_SIZE (by rw [hpages]; exact hn')
          (by rw [hreslen]; omega)
          (by rw [hP, hreslen])
      rw [hP] at hflush
      have htake : (p2.pages.getD n []).take 4096 = p.pages.getD n [] := by
        rw [hpages]
        exact List.take_of_length_le (by rw [hres4])
      have hdlen : ((p2.pages.getD n []).take 4096).length = 4096 := by
        rw [htake, hres4]
      refine ⟨Pager.mk (writeAt p2.file (n * 4096) ((p2.pages.getD n []).take 4096))
        p2.file_length p2.pages, ?_, hpages, hflen, ?_, ?_, ?_, ?_, ?_⟩
      · unfold Pager.flushUpto
        rw [hup]
        dsimp only
        rw [hP]
        rw [hflush]
      · show p.file.length ≤ (writeAt p2.file (n * 4096) _).length
        rw [length_writeAt]
        omega
      · show (writeAt p2.file (n * 4096) _).length ≤ _
        rw [length_writeAt, hdlen]
        omega
      · intro i hi hires
        rcases Nat.lt_or_ge i n with hilt | hieq
        · obtain ⟨hs, hl⟩ := hseg i hilt hires
          constructor
          · show segment (writeAt p2.file (n * 4096) _) (i * 4096) 4096 = _
            rw [segment_writeAt_below p2.file (n * 4096) _ (i * 4096) 4096
              (by omega) (by omega)]
            exact hs
          · show (i + 1) * 4096 ≤ (writeAt p2.file (n * 4096) _).length
            rw [length_writeAt]
            omega
        · have : i = n := by omega
          subst this
          constructor
          · show segment (writeAt p2.file (i * 4096)
              ((p2.pages.getD i []).take 4096)) (i * 4096) 4096 = _
            rw [segment_writeAt_self_of_length _ _ _ _ hdlen]
            exact htake
          · show (i + 1) * 4096 ≤ (writeAt p2.file (i * 4096) _).length
            rw [length_writeAt, hdlen]
            omega
      · intro j hj
        show (writeAt p2.file (n * 4096) _)[j]? = _
        rw [writeAt_getElem?]
        rw [if_neg (by omega), if_neg (by rw [hdlen]; omega)]
        exact htail j (by omega)
      · intro hall
        show (writeAt p2.file (n * 4096) _).length = _
        rw [length_writeAt, hdlen]
        rw [hexact (fun i hi => hall i (by omega))]
        omega

/-- Teardown `Drop for Table`: every resident full page is written back whole,
a non-empty partial trailing page writes exactly its live prefix, the
page slots are untouched, and for a session on a fresh (empty) file
with the expected residency the final file length is exactly
`full_pages * PAGE_SIZE + (num_rows % ROWS_PER_PAGE) * ROW_SIZE`. -/
theorem Table.dropTable_spec (t : Table) (hwf : PagerWF t.pager)
    (hrows : t.num_rows ≤ TABLE_MAX_ROWS) :
    ∃ p2, t.dropTable = some p2 ∧
      p2.pages = t.pager.pages ∧
      p2.file_length = t.pager.file_length ∧
      (∀ i, i < t.num_rows / ROWS_PER_PAGE →
        (t.pager.pages.getD i []).length = PAGE_SIZE →
        segment p2.file (i * PAGE_SIZE) PAGE_SIZE = t.pager.pages.getD i []) ∧
      (0 < t.num_rows % ROWS_PER_PAGE →
        (t.pager.pages.getD (t.num_rows / ROWS_PER_PAGE) []).length = PAGE_SIZE →
        segment p2.file ((t.num_rows / ROWS_PER_PAGE) * PAGE_SIZE)
            ((t.num_rows % ROWS_PER_PAGE) * ROW_SIZE) =
          (t.pager.pages.getD (t.num_rows / ROWS_PER_PAGE) []).take
            ((t.num_rows % ROWS_PER_PAGE) * ROW_SIZE)) ∧
      (t.pager.file = [] →
        (∀ i, i < t.num_rows / ROWS_PER_PAGE →
          (t.pager.pages.getD i []).length = PAGE_SIZE) →
        (0 < t.num_rows % ROWS_PER_PAGE →
          (t.pager.pages.getD (t.num_rows / ROWS_PER_PAGE) []).length = PAGE_SIZE) →
        p2.file.length = (t.num_rows / ROWS_PER_PAGE) * PAGE_SIZE +
          (t.num_rows % ROWS_PER_PAGE) * ROW_SIZE) ∧
      (∀ j, (t.num_rows / ROWS_PER_PAGE) * PAGE_SIZE +
          (t.num_rows % ROWS_PER_PAGE) * ROW_SIZE ≤ j →
        p2.file[j]? = t.pager.file[j]?) ∧
      p2.file.length ≤ max t.pager.file.length
        ((t.num_rows / ROWS_PER_PAGE) * PAGE_SIZE +
          (t.num_rows % ROWS_PER_PAGE) * ROW_SIZE) := by
  have hP : PAGE_SIZE = 4096 := rfl
  have h14 : ROWS_PER_PAGE = 14 := rfl
  have h291 : ROW_SIZE = 291 := rfl
  have h1400 : TABLE_MAX_ROWS = 1400 := rfl
  rw [hP, h14, h291]
  rw [h1400] at hrows
  have hfull : t.num_rows / 14 ≤ t.pager.pages.length := by
    rw [hwf.pages_len]
    show t.num_rows / 14 ≤ 100
    omega
  obtain ⟨p2, hup, hpages, hflen, hgrow, hbound, hseg, htail, hexact⟩ :=
    Pager.flushUpto_spec (t.num_rows / ROWS_PER_PAGE) t.pager hwf.pages_wf
      (by rw [h14]; exact hfull)
  simp only [hP, h14] at hup hbound hseg htail hexact
  have hmodlt : t.num_rows % 14 < 14 := Nat.mod_lt _ (by norm_num)
  unfold Table.dropTable
  rw [h14, hP, h291] at *
  rw [hup]
  dsimp only
  by_cases hadd : t.num_rows % 14 > 0
  · rw [if_pos hadd]
    by_cases hres : (t.pager.pages.getD (t.num_rows / 14) []).length = 0
    · -- partial page never materialized: flush is a no-op
      have hempty : t.pager.pages.getD (t.num_rows / 14) [] = [] :=
        List.eq_nil_of_length_eq_zero hres
      rw [Pager.flush_noop p2 (t.num_rows / 14) _
        (by rw [hpages]; rw [hwf.pages_len]; show t.num_rows / 14 < 100; omega)
        (by rw [hpages]; exact hempty)]
      refine ⟨p2, rfl, hpages, hflen, fun i hi hq => (hseg i hi hq).1, ?_, ?_, ?_, ?_⟩
      · intro _ hresfull
        rw [hresfull] at hres
        omega
      · intro _ _ hresfull
        rw [hresfull hadd] at hres
        omega
      · intro j hj
        exact htail j (by omega)
      · omega
    · -- partial page resident
      have hreslen : (t.pager.pages.getD (t.num_rows / 14) []).length = 4096 := by
        rcases hwf.pages_wf.getD_cases (t.num_rows / 14) with h0 | h4
        · exact absurd h0 hres
        · rw [← hP]; exact h4
      have hszle : (t.num_rows % 14) * 291 ≤
          (t.pager.pages.getD (t.num_rows / 14) []).length := by
        rw [hreslen]; omega
      rw [Pager.flush_resident p2 (t.num_rows / 14) _
        (by rw [hpages]; rw [hwf.pages_len]; show t.num_rows / 14 < 100; omega)
        (by rw [hpages]; exact hres)
        (by rw [hpages]; exact hszle)]
      have hdlen : ((p2.pages.getD (t.num_rows / 14) []).take ((t.num_rows % 14) * 291)).length
          = (t.num_rows % 14) * 291 := by
        rw [hpages, List.length_take, hreslen]
        omega
      refine ⟨_, rfl, hpages, hflen, ?_, ?_, ?_, ?_, ?_⟩
      · intro i hi hq
        obtain ⟨hs, hl⟩ := hseg i hi hq
        show segment (writeAt p2.file ((t.num_rows / 14) * 4096) _) (i * 4096) 4096 = _
        rw [segment_writeAt_below p2.file _ _ (i * 4096) 4096 (by omega) (by omega)]
        exact hs
      · intro _ hq
        show segment (writeAt p2.file ((t.num_rows / 14) * 4096) _)
          ((t.num_rows / 14) * 4096) ((t.num_rows % 14) * 291) = _
        rw [segment_writeAt_self_of_length _ _ _ _ hdlen, hpages]
      · intro hfile hall _
        show (writeAt p2.file ((t.num_rows / 14) * 4096) _).length = _
        rw [length_writeAt, hdlen]
        rw [hexact hall]
        rw [hfile]
        simp
      · intro j hj
        show (writeAt p2.file ((t.num_rows / 14) * 4096) _)[j]? = _
        rw [writeAt_getElem?]
        rw [if_neg (by omega), if_neg (by rw [hdlen]; omega)]
        exact htail j (by omega)
      · show (writeAt p2.file ((t.num_rows / 14) * 4096) _).length ≤ _
        rw [length_writeAt, hdlen]
        omega
  · rw [if_neg hadd]
    refine ⟨p2, rfl, hpages, hflen, fun i hi hq => (hseg i hi hq).1, ?_, ?_, ?_, ?_⟩
    · intro h0
      omega
    · intro hfile hall _
      rw [hexact hall, hfile]
      simp
      omega
    · intro j hj
      exact htail j (by omega)
    · omega

/-- Bytes of the row window at or past the encoded fields are left
exactly as they were by `Row::serialize`. -/
theorem serialize_frame (r : Row) (slot slot2 : List Nat)
    (hser : r.serialize slot = some slot2) (k : Nat)
    (hk : 6 + r.user_id.length + r.email.length ≤ k) :
    slot2[k]? = slot[k]? := by
  unfold Row.serialize at hser
  split at hser
  · next hle =>
    have h2 := Option.some.inj hser
    subst h2
    rw [List.getElem?_append]
    rw [if_neg (by
      simp only [List.length_append, List.length_cons, List.length_nil]
      omega)]
    rw [List.getElem?_drop]
    congr 1
    simp only [List.length_append, List.length_cons, List.length_nil]
    omega
  · cases hser

/-- On any success, the table returned by `get_row` differs from the
input only in the pager (never in `num_rows`). -/
theorem Table.get_row_num_rows (t : Table) (i : Nat)
    (out : Table × Nat × Nat × List Nat)
    (h : t.get_row i = some (Except.ok out)) : out.1.num_rows = t.num_rows := by
  unfold Table.get_row at h
  split at h
  · simp at h
  · cases hget : t.pager.get (i / ROWS_PER_PAGE) with
    | none => rw [hget] at h; cases h
    | some pr =>
      obtain ⟨pg, page⟩ := pr
      rw [hget] at h
      dsimp only at h
      split at h
      · simp only [Option.some.injEq, Except.ok.injEq] at h
        subst h
        rfl
      · cases h

theorem Table.writeSlot_num_rows (t : Table) (pn off : Nat) (slot : List Nat)
    (t2 : Table) (h : t.writeSlot pn off slot = some t2) :
    t2.num_rows = t.num_rows := by
  unfold Table.writeSlot at h
  split at h
  · simp only [Option.some.injEq] at h
    subst h
    rfl
  · cases h

/-- The `add_row` operation never decreases `num_rows` (it either leaves the table
untouched on `TableFull` or increments the count by one). -/
theorem Table.add_row_num_rows (t : Table) (r : Row)
    (out : Table × Option DbError)
    (h : t.add_row r = some out) : t.num_rows ≤ out.1.num_rows := by
  unfold Table.add_row at h
  cases hget : t.get_row t.num_rows with
  | none => rw [hget] at h; cases h
  | some res =>
    rw [hget] at h
    cases res with
    | error e =>
      dsimp only at h
      simp only [Option.some.injEq] at h
      subst h
      exact le_refl _
    | ok tup =>
      obtain ⟨t2, pn, off, slot⟩ := tup
      have ht2 : t2.num_rows = t.num_rows :=
        Table.get_row_num_rows t t.num_rows (t2, pn, off, slot) hget
      dsimp only at h
      cases hser : r.serialize slot with
      | none => rw [hser] at h; cases h
      | some slot2 =>
        rw [hser] at h
        dsimp only at h
        cases hws : t2.writeSlot pn off slot2 with
        | none => rw [hws] at h; cases h
        | some t3 =>
          rw [hws] at h
          dsimp only at h
          simp only [Option.some.injEq] at h
          subst h
          have hw := Table.writeSlot_num_rows t2 pn off slot2 t3 hws
          show t.num_rows ≤ t3.num_rows + 1
          omega

/-- Scanning row indices never changes `num_rows`. -/
theorem Table.scanRows_num_rows (idx : List Nat) (t : Table)
    (out : Table × Except DbError (List Row))
    (h : t.scanRows idx = some out) : out.1.num_rows = t.num_rows := by
  induction idx generalizing t out with
  | nil =>
    unfold Table.scanRows at h
    simp only [Option.some.injEq] at h
    subst h
    rfl
  | cons i is ih =>
    unfold Table.scanRows at h
    cases hget : t.get_row i with
    | none => rw [hget] at h; cases h
    | some res =>
      rw [hget] at h
      cases res with
      | error e =>
        dsimp only at h
        simp only [Option.some.injEq] at h
        subst h
        rfl
      | ok tup =>
        obtain ⟨t2, pn, off, slot⟩ := tup
        have ht2 : t2.num_rows = t.num_rows :=
          Table.get_row_num_rows t i (t2, pn, off, slot) hget
        dsimp only at h
        cases hdes : Row.deserialize slot with
        | none => rw [hdes] at h; cases h
        | some r =>
          rw [hdes] at h
          dsimp only at h
          cases hrec : t2.scanRows is with
          | none => rw [hrec] at h; cases h
          | some out2 =>
            obtain ⟨t3, res3⟩ := out2
            rw [hrec] at h
            have ht3 : t3.num_rows = t2.num_rows := ih t2 (t3, res3) hrec
            cases res3 with
            | error e =>
              dsimp only at h
              simp only [Option.some.injEq] at h
              subst h
              show t3.num_rows = t.num_rows
              rw [ht3, ht2]
            | ok rest =>
              dsimp only at h
              simp only [Option.some.injEq] at h
              subst h
              show t3.num_rows = t.num_rows
              rw [ht3, ht2]

theorem Table.scan_num_rows (t : Table) (out : Table × Except DbError (List Row))
    (h : t.scan = some out) : out.1.num_rows = t.num_rows :=
  Table.scanRows_num_rows (List.range t.num_rows) t out h

theorem ResMono_refl (ps : List (List Nat)) : ResMono ps ps :=
  ⟨rfl, fun _ h => h⟩

theorem ResMono_trans {a b c : List (List Nat)} (h1 : ResMono a b)
    (h2 : ResMono b c) : ResMono a c :=
  ⟨h2.1.trans h1.1, fun m hm => h2.2 m (h1.2 m hm)⟩

theorem ResMono_set (ps : List (List Nat)) (n : Nat) (x : List Nat)
    (hn : n < ps.length) (hx : x.length = PAGE_SIZE) :
    ResMono ps (ps.set n x) := by
  refine ⟨List.length_set ps n x, ?_⟩
  intro m hm
  by_cases hmn : m = n
  · subst hmn
    rw [getD_set_self _ _ hn]
    exact hx
  · rw [getD_set_ne _ _ _ _ (fun he => hmn he.symm)]
    exact hm

theorem Pager.flush_pages (p : Pager) (n sz : Nat) (p2 : Pager)
    (h : p.flush n sz = some p2) : p2.pages = p.pages := by
  unfold Pager.flush at h
  split at h
  · split at h
    · simp only [Option.some.injEq] at h
      subst h
      rfl
    · split at h
      · simp only [Option.some.injEq] at h
        subst h
        rfl
      · cases h
  · cases h

theorem Pager.flushUpto_pages (n : Nat) (p : Pager) (p2 : Pager)
    (h : p.flushUpto n = some p2) : p2.pages = p.pages := by
  induction n generalizing p2 with
  | zero =>
    unfold Pager.flushUpto at h
    simp only [Option.some.injEq] at h
    subst h
    rfl
  | succ n ih =>
    unfold Pager.flushUpto at h
    cases hup : p.flushUpto n with
    | none => rw [hup] at h; cases h
    | some pmid =>
      rw [hup] at h
      dsimp only at h
      rw [Pager.flush_pages pmid n PAGE_SIZE p2 h, ih pmid hup]

theorem Table.dropTable_pages (t : Table) (p2 : Pager)
    (h : t.dropTable = some p2) : p2.pages = t.pager.pages := by
  unfold Table.dropTable at h
  cases hup : t.pager.flushUpto (t.num_rows / ROWS_PER_PAGE) with
  | none => rw [hup] at h; cases h
  | some pmid =>
    rw [hup] at h
    dsimp only at h
    have h1 := Pager.flushUpto_pages _ _ _ hup
    split at h
    · rw [Pager.flush_pages _ _ _ _ h, h1]
    · simp only [Option.some.injEq] at h
      subst h
      exact h1

/-- Running `Pager::get`, on any success from a well-formed pager, keeps the
invariant and only turns the fetched page resident. -/
theorem Pager.get_pages (p : Pager) (n : Nat) (out : Pager × List Nat)
    (hwf : PagerWF p) (h : p.get n = some out) :
    PagerWF out.1 ∧ ResMono p.pages out.1.pages := by
  by_cases hn : n < TABLE_MAX_PAGES
  · rw [Pager.get_spec p n hwf hn] at h
    simp only [Option.some.injEq] at h
    subst h
    refine ⟨PagerWF_after_get p n hwf, ResMono_set _ _ _ ?_ ?_⟩
    · rw [hwf.pages_len]
      exact hn
    · exact length_pageView p n hwf.pages_wf
  · rw [Pager.get_none p n hwf.pages_len (by omega)] at h
    cases h

/-- Running `Table::add_row`, on any success from a well-formed pager, keeps
the invariant and only materializes/overwrites the target row's page. -/
theorem Table.add_row_pages (t : Table) (r : Row) (out : Table × Option DbError)
    (hwf : PagerWF t.pager) (h : t.add_row r = some out) :
    PagerWF out.1.pager ∧ ResMono t.pager.pages out.1.pager.pages := by
  unfold Table.add_row at h
  by_cases hfull : TABLE_MAX_PAGES ≤ t.num_rows / ROWS_PER_PAGE
  · rw [Table.get_row_full t t.num_rows hfull] at h
    dsimp only at h
    simp only [Option.some.injEq] at h
    subst h
    exact ⟨hwf, ResMono_refl _⟩
  · rw [Table.get_row_spec t t.num_rows hwf (by omega)] at h
    dsimp only at h
    cases hser : r.serialize (t.slotView t.num_rows) with
    | none => rw [hser] at h; cases h
    | some slot2 =>
      rw [hser] at h
      dsimp only at h
      have h14 : ROWS_PER_PAGE = 14 := rfl
      have h291 : ROW_SIZE = 291 := rfl
      have h4096 : PAGE_SIZE = 4096 := rfl
      have hplen : t.num_rows / ROWS_PER_PAGE < t.pager.pages.length := by
        rw [hwf.pages_len]
        omega
      have hmod : t.num_rows % ROWS_PER_PAGE < 14 := by
        rw [h14]
        exact Nat.mod_lt _ (by norm_num)
      have hpvlen : (t.pager.pageView (t.num_rows / ROWS_PER_PAGE)).length = PAGE_SIZE :=
        length_pageView _ _ hwf.pages_wf
      have hoffb : (t.num_rows % ROWS_PER_PAGE) * ROW_SIZE + ROW_SIZE ≤
          (t.pager.pageView (t.num_rows / ROWS_PER_PAGE)).length := by
        rw [hpvlen, h14, h291, h4096]
        rw [h14] at hmod
        omega
      have hslotlen : (t.slotView t.num_rows).length = ROW_SIZE := by
        unfold Table.slotView
        exact length_segment_of_le _ _ _ hoffb
      have hslot2len : slot2.length = ROW_SIZE := by
        rw [length_serialize r _ _ hser, hslotlen]
      have hwrb : (t.num_rows % ROWS_PER_PAGE) * ROW_SIZE + slot2.length ≤
          (t.pager.pageView (t.num_rows / ROWS_PER_PAGE)).length := by
        rw [hslot2len]
        exact hoffb
      have hnewlen : (writeRange (t.pager.pageView (t.num_rows / ROWS_PER_PAGE))
          ((t.num_rows % ROWS_PER_PAGE) * ROW_SIZE) slot2).length = PAGE_SIZE := by
        rw [length_writeRange _ _ _ hwrb, hpvlen]
      unfold Table.writeSlot at h
      have hplen2 : t.num_rows / ROWS_PER_PAGE <
          (t.pager.pages.set (t.num_rows / ROWS_PER_PAGE)
            (t.pager.pageView (t.num_rows / ROWS_PER_PAGE))).length := by
        rw [List.length_set]
        exact hplen
      rw [dif_pos hplen2] at h
      dsimp only at h
      have hget2 : (t.pager.pages.set (t.num_rows / ROWS_PER_PAGE)
          (t.pager.pageView (t.num_rows / ROWS_PER_PAGE))).get
            ⟨t.num_rows / ROWS_PER_PAGE, hplen2⟩ =
          t.pager.pageView (t.num_rows / ROWS_PER_PAGE) := by
        rw [← getD_eq_get _ _ hplen2]
        exact getD_set_self _ _ hplen _
      rw [hget2, List.set_set] at h
      simp only [Option.some.injEq] at h
      subst h
      constructor
      · refine ⟨?_, hwf.file_len, ?_⟩
        · rw [List.length_set]
          exact hwf.pages_len
        · exact PagesWF_set _ _ _ hwf.pages_wf hnewlen
      · exact ResMono_set _ _ _ hplen hnewlen

/-- Scanning, on any success from a well-formed pager, keeps the
invariant and only materializes pages. -/
theorem Table.scanRows_pages (idx : List Nat) (t : Table)
    (out : Table × Except DbError (List Row)) (hwf : PagerWF t.pager)
    (h : t.scanRows idx = some out) :
    PagerWF out.1.pager ∧ ResMono t.pager.pages out.1.pager.pages := by
  induction idx generalizing t out with
  | nil =>
    unfold Table.scanRows at h
    simp only [Option.some.injEq] at h
    subst h
    exact ⟨hwf, ResMono_refl _⟩
  | cons i is ih =>
    unfold Table.scanRows at h
    by_cases hfull : TABLE_MAX_PAGES ≤ i / ROWS_PER_PAGE
    · rw [Table.get_row_full t i hfull] at h
      dsimp only at h
      simp only [Option.some.injEq] at h
      subst h
      exact ⟨hwf, ResMono_refl _⟩
    · rw [Table.get_row_spec t i hwf (by omega)] at h
      dsimp only at h
      cases hdes : Row.deserialize (t.slotView i) with
      | none => rw [hdes] at h; cases h
      | some r =>
        rw [hdes] at h
        dsimp only at h
        have hplen : i / ROWS_PER_PAGE < t.pager.pages.length := by
          rw [hwf.pages_len]
          omega
        have hwf2 : PagerWF { t.pager with
            pages := t.pager.pages.set (i / ROWS_PER_PAGE)
              (t.pager.pageView (i / ROWS_PER_PAGE)) } :=
          PagerWF_after_get t.pager (i / ROWS_PER_PAGE) hwf
        have hmono1 : ResMono t.pager.pages
            (t.pager.pages.set (i / ROWS_PER_PAGE)
              (t.pager.pageView (i / ROWS_PER_PAGE))) :=
          ResMono_set _ _ _ hplen (length_pageView _ _ hwf.pages_wf)
        cases hrec : Table.scanRows { t with pager := { t.pager with
            pages := t.pager.pages.set (i / ROWS_PER_PAGE)
              (t.pager.pageView (i / ROWS_PER_PAGE)) } } is with
        | none => rw [hrec] at h; cases h
        | some out2 =>
          obtain ⟨t3, res3⟩ := out2
          rw [hrec] at h
          obtain ⟨hwf3, hmono3⟩ := ih _ (t3, res3) hwf2 hrec
          cases res3 with
          | error e =>
            dsimp only at h
            simp only [Option.some.injEq] at h
            subst h
            exact ⟨hwf3, ResMono_trans hmono1 hmono3⟩
          | ok rest =>
            dsimp only at h
            simp only [Option.some.injEq] at h
            subst h
            exact ⟨hwf3, ResMono_trans hmono1 hmono3⟩

theorem segment_take (l : List Nat) (m o c : Nat) (h : o + c ≤ m) :
    segment (l.take m) o c = segment l o c := by
  apply List.ext_getElem?
  intro i
  rw [segment_getElem?, segment_getElem?]
  by_cases hi : i < c
  · rw [if_pos hi, if_pos hi, List.getElem?_take]
    rw [if_pos (by omega)]
  · rw [if_neg hi, if_neg hi]

theorem segment_append_left (l l2 : List Nat) (o c : Nat) (h : o + c ≤ l.length) :
    segment (l ++ l2) o c = segment l o c := by
  apply List.ext_getElem?
  intro i
  rw [segment_getElem?, segment_getElem?]
  by_cases hi : i < c
  · rw [if_pos hi, if_pos hi, List.getElem?_append]
    rw [if_pos (by omega)]
  · rw [if_neg hi, if_neg hi]

theorem padTo_eq_self (l : List Nat) (n : Nat) (h : l.length = n) :
    padTo l n = l := by
  unfold padTo
  rw [h, Nat.sub_self]
  simp

/-- Opening via `Table::db_open` recomputes `num_rows` from the file length: full
pages contribute 14 rows, the partial trailing page `remainder / 291`. -/
theorem db_open_num_rows (file : List Nat) :
    (Table.db_open file).num_rows =
      (file.length / 4096) * 14 + (file.length % 4096) / 291 := by
  show (file.length - (file.length / PAGE_SIZE) * PAGE_SIZE) / ROW_SIZE +
      (file.length / PAGE_SIZE) * ROWS_PER_PAGE = _
  have h4096 : PAGE_SIZE = 4096 := rfl
  have h291 : ROW_SIZE = 291 := rfl
  have h14 : ROWS_PER_PAGE = 14 := rfl
  rw [h4096, h291, h14]
  omega

theorem PagerWF_db_open (file : List Nat) : PagerWF (Table.db_open file).pager := by
  refine ⟨?_, rfl, ?_⟩
  · show (List.replicate TABLE_MAX_PAGES ([] : List Nat)).length = TABLE_MAX_PAGES
    rw [List.length_replicate]
  · intro pg hpg
    rw [List.eq_of_mem_replicate hpg]
    left
    rfl

/-- Closing a session that appended `rs` to a fresh file and reopening
the written file: the recomputed row count equals `rs.length` and every
row window of the reopened table holds the same bytes it held before
the flush. -/
theorem reopen_slotView (t : Table) (rs : List Row) (hrep : Represents t rs)
    (hlen : rs.length ≤ TABLE_MAX_ROWS) :
    ∃ p2, t.dropTable = some p2 ∧
      (Table.db_open p2.file).num_rows = rs.length ∧
      ∀ i, i < rs.length → (Table.db_open p2.file).slotView i = t.slotView i := by
  have hP : PAGE_SIZE = 4096 := rfl
  have h14 : ROWS_PER_PAGE = 14 := rfl
  have h291 : ROW_SIZE = 291 := rfl
  have h1400 : TABLE_MAX_ROWS = 1400 := rfl
  have hcount := hrep.count
  have hmodlt : rs.length % 14 < 14 := Nat.mod_lt _ (by norm_num)
  have hresfull : ∀ i, i < t.num_rows / ROWS_PER_PAGE →
      (t.pager.pages.getD i []).length = PAGE_SIZE := by
    intro i hi
    apply hrep.resident
    rw [hcount, h14] at hi
    rw [h14]
    omega
  have hrespart : 0 < t.num_rows % ROWS_PER_PAGE →
      (t.pager.pages.getD (t.num_rows / ROWS_PER_PAGE) []).length = PAGE_SIZE := by
    intro hmod
    apply hrep.resident
    rw [hcount, h14] at hmod ⊢
    omega
  obtain ⟨p2, hdrop, hpages, hflen, hfullseg, hpartseg, hlenex, _, _⟩ :=
    Table.dropTable_spec t hrep.wf (by rw [hcount]; exact hlen)
  have hL : p2.file.length =
      (rs.length / 14) * 4096 + (rs.length % 14) * 291 := by
    rw [hlenex hrep.file_nil hresfull hrespart, hcount, h14, hP, h291]
  refine ⟨p2, hdrop, ?_, ?_⟩
  · rw [db_open_num_rows p2.file, hL]
    rw [h1400] at hlen
    omega
  · intro i hi
    have hpagei : i / 14 ≤ rs.length / 14 := Nat.div_le_div_right (by omega)
    have hnewpages : ∀ m, ((Table.db_open p2.file).pager.pages.getD m []) = [] := by
      intro m
      show (List.replicate TABLE_MAX_PAGES ([] : List Nat)).getD m [] = []
      by_cases hm : m < TABLE_MAX_PAGES
      · rw [List.getD_eq_getElem?_getD, List.getElem?_replicate, if_pos hm]
        rfl
      · rw [List.getD_eq_getElem?_getD,
          List.getElem?_eq_none (by rw [List.length_replicate]; omega)]
        rfl
    have hnewview : ∀ m, (Table.db_open p2.file).pager.pageView m
        = loadPage p2.file m := by
      intro m
      unfold Pager.pageView
      rw [hnewpages m]
      rw [if_pos (show List.length ([] : List Nat) = 0 from rfl)]
      rfl
    unfold Table.slotView
    rw [hnewview, h14, h291]
    rw [h14, h291] at *
    unfold loadPage
    rcases Nat.lt_or_ge (i / 14) (rs.length / 14) with hplt | hpge
    · -- a full page: the file holds all 4096 bytes of it
      have hseg : segment p2.file ((i / 14) * 4096) 4096
          = t.pager.pages.getD (i / 14) [] := by
        have := hfullseg (i / 14) (by rw [hcount]; omega)
          (hresfull (i / 14) (by rw [hcount]; omega))
        rw [hP] at this
        exact this
      have hreslen : (t.pager.pages.getD (i / 14) []).length = 4096 := by
        have := hresfull (i / 14) (by rw [hcount]; omega)
        rw [hP] at this
        exact this
      rw [hP, hseg, padTo_eq_self _ _ hreslen]
      rw [pageView_resident t.pager (i / 14) (by rw [hreslen]; omega)]
    · -- the partial trailing page
      have hpeq : i / 14 = rs.length / 14 := by omega
      have hadd : 0 < rs.length % 14 := by
        by_contra h0
        have : rs.length % 14 = 0 := by omega
        omega
      have hresp : (t.pager.pages.getD (rs.length / 14) []).length = 4096 := by
        have := hrespart (by rw [hcount]; omega)
        rw [hP, hcount] at this
        exact this
      have hpartEq : segment p2.file ((rs.length / 14) * 4096) ((rs.length % 14) * 291)
          = (t.pager.pages.getD (rs.length / 14) []).take ((rs.length % 14) * 291) := by
        have := hpartseg (by rw [hcount]; omega)
          (by rw [hP, hcount]; exact hresp)
        rw [hP, hcount] at this
        exact this
      have hdroplen : (p2.file.drop ((rs.length / 14) * 4096)).length
          = (rs.length % 14) * 291 := by
        rw [List.length_drop, hL]
        omega
      have hsegwide : segment p2.file ((rs.length / 14) * 4096) 4096
          = segment p2.file ((rs.length / 14) * 4096) ((rs.length % 14) * 291) := by
        unfold segment
        rw [List.take_of_length_le (by rw [hdroplen]; omega),
          List.take_of_length_le (by rw [hdroplen])]
      have himod : i % 14 < rs.length % 14 := by omega
      rw [hP, hpeq, hsegwide, hpartEq]
      unfold padTo
      rw [segment_append_left _ _ _ _ (by
        rw [List.length_take, hresp]
        have h1 : (i % 14) * 291 + 291 = (i % 14 + 1) * 291 := by ring
        have h2 : (i % 14 + 1) * 291 ≤ (rs.length % 14) * 291 :=
          Nat.mul_le_mul_right _ (by omega)
        omega)]
      rw [segment_take _ _ _ _ (by
        have h2 : (i % 14 + 1) * 291 ≤ (rs.length % 14) * 291 :=
          Nat.mul_le_mul_right _ (by omega)
        omega)]
      rw [pageView_resident t.pager (rs.length / 14) (by rw [hresp]; omega)]

/-- C1: appending up to 1400 valid records to a table on a fresh
(empty) file, tearing the table down (the drop-flush), reopening the
written file and scanning rows `0 .. num_rows` yields exactly the
original records in the original order. -/
theorem claim_C1 (rs : List Row) (hv : ∀ r ∈ rs, r.valid)
    (hlen : rs.length ≤ TABLE_MAX_ROWS) :
    ∃ t p2 t3, (Table.db_open []).addAll rs = some (t, none) ∧
      t.dropTable = some p2 ∧
      (Table.db_open p2.file).num_rows = rs.length ∧
      (Table.db_open p2.file).scan = some (t3, Except.ok rs) := by
  obtain ⟨t, hadd, hrep⟩ := Table.addAll_spec rs (Table.db_open []) []
    represents_empty hv (by simpa using hlen)
  simp only [List.nil_append] at hrep
  obtain ⟨p2, hdrop, hnum, hslots⟩ := reopen_slotView t rs hrep hlen
  have hwf2 := PagerWF_db_open p2.file
  have h14 : ROWS_PER_PAGE = 14 := rfl
  have h100 : TABLE_MAX_PAGES = 100 := rfl
  have h1400 : TABLE_MAX_ROWS = 1400 := rfl
  obtain ⟨t3, hscan, _⟩ := Table.scanRows_spec
    (List.range (Table.db_open p2.file).num_rows)
    (Table.db_open p2.file) (fun i => rs.getD i ⟨0, [], []⟩) hwf2
    (fun i hi => by
      rw [List.mem_range, hnum] at hi
      rw [h14, h100]
      rw [h1400] at hlen
      omega)
    (fun i hi => by
      rw [List.mem_range, hnum] at hi
      rw [hslots i hi]
      exact hrep.rows i hi)
  refine ⟨t, p2, t3, hadd, hdrop, hnum, ?_⟩
  show (Table.db_open p2.file).scanRows
    (List.range (Table.db_open p2.file).num_rows) = _
  rw [hscan, hnum, range_map_getD]

theorem claim_C1_witness :
    ∃ t p2 t3, (Table.db_open []).addAll [sampleRow] = some (t, none) ∧
      t.dropTable = some p2 ∧
      (Table.db_open p2.file).num_rows = 1 ∧
      (Table.db_open p2.file).scan = some (t3, Except.ok [sampleRow]) :=
  claim_C1 [sampleRow]
    (by intro r hr; rw [List.mem_singleton] at hr; rw [hr]; decide) (by decide)

/-- C2: for every valid record `r` (id any u32, user_id at most 31
UTF-8 bytes, email at most 254 UTF-8 bytes) and every buffer of
`row_size = 291` bytes, deserializing the buffer after serializing `r`
into it returns a record equal to `r`. -/
theorem claim_C2 (r : Row) (buf : List Nat) (hv : r.valid)
    (hlen : buf.length = ROW_SIZE) :
    (r.serialize buf).bind Row.deserialize = some r := by
  obtain ⟨out, hser, hdes⟩ := deserialize_serialize r buf hv (by rw [hlen])
  rw [hser]
  exact hdes

theorem claim_C2_witness :
    (Row.serialize sampleRow (List.replicate 291 0)).bind Row.deserialize
      = some sampleRow :=
  claim_C2 sampleRow (List.replicate 291 0) (by decide) (by decide)

/-- C3: from an empty table every one of the first 1400 appends of
valid records succeeds; any append attempted with `num_rows ≥ 1400`
fails with `TableFull` and returns the table literally unchanged (so
`num_rows` is not incremented and no page byte is modified). -/
theorem claim_C3 (rs : List Row) (hv : ∀ r ∈ rs, r.valid)
    (hlen : rs.length ≤ TABLE_MAX_ROWS) :
    (∃ t, (Table.db_open []).addAll rs = some (t, none) ∧ t.num_rows = rs.length) ∧
    (∀ t : Table, ∀ r : Row, TABLE_MAX_ROWS ≤ t.num_rows →
      t.add_row r = some (t, some DbError.TableFull)) := by
  constructor
  · obtain ⟨t2, hadd, hrep⟩ := Table.addAll_spec rs (Table.db_open []) []
      represents_empty hv (by simpa using hlen)
    refine ⟨t2, hadd, ?_⟩
    rw [hrep.count]
    simp
  · intro t r h
    exact Table.add_row_full t r h

theorem claim_C3_witness :
    (∃ t, (Table.db_open []).addAll [sampleRow] = some (t, none) ∧ t.num_rows = 1) ∧
    (Table.add_row { pager := Pager.open [], num_rows := 1400 } sampleRow =
      some ({ pager := Pager.open [], num_rows := 1400 }, some DbError.TableFull)) := by
  have h := claim_C3 [sampleRow]
    (by intro r hr; rw [List.mem_singleton] at hr; rw [hr]; decide) (by decide)
  exact ⟨h.1, h.2 _ _ (by decide)⟩

/-- C4: appending any sequence of up to 1400 valid records to a fresh
table and then scanning rows `0 .. num_rows` yields exactly the
appended records in order, within a single session. -/
theorem claim_C4 (rs : List Row) (hv : ∀ r ∈ rs, r.valid)
    (hlen : rs.length ≤ TABLE_MAX_ROWS) :
    ∃ t t2, (Table.db_open []).addAll rs = some (t, none) ∧
      t.scan = some (t2, Except.ok rs) := by
  obtain ⟨t, hadd, hrep⟩ := Table.addAll_spec rs (Table.db_open []) []
    represents_empty hv (by simpa using hlen)
  simp only [List.nil_append] at hrep
  have hcount : t.num_rows = rs.length := hrep.count
  have h14 : ROWS_PER_PAGE = 14 := rfl
  have h100 : TABLE_MAX_PAGES = 100 := rfl
  have h1400 : TABLE_MAX_ROWS = 1400 := rfl
  obtain ⟨t2, hscan, _⟩ := Table.scanRows_spec (List.range t.num_rows) t
    (fun i => rs.getD i ⟨0, [], []⟩) hrep.wf
    (fun i hi => by
      rw [List.mem_range, hcount] at hi
      rw [h14, h100]
      rw [h1400] at hlen
      omega)
    (fun i hi => by
      rw [List.mem_range, hcount] at hi
      exact hrep.rows i hi)
  refine ⟨t, t2, hadd, ?_⟩
  show t.scanRows (List.range t.num_rows) = _
  rw [hscan, hcount, range_map_getD]

theorem claim_C4_witness :
    ∃ t t2, (Table.db_open []).addAll [sampleRow] = some (t, none) ∧
      t.scan = some (t2, Except.ok [sampleRow]) :=
  claim_C4 [sampleRow]
    (by intro r hr; rw [List.mem_singleton] at hr; rw [hr]; decide) (by decide)

/-- C5: opening a table on a backing file of byte length `L` sets
`num_rows` to `(L / 4096) * 14 + (L % 4096) / 291`. -/
theorem claim_C5 (file : List Nat) :
    (Table.db_open file).num_rows =
      (file.length / 4096) * 14 + (file.length % 4096) / 291 :=
  db_open_num_rows file

/-- C7: on a well-formed pager, `Pager::get` succeeds exactly at page
indices below `max_pages = 100`; at `p = 100` the pages-vector index
panics and at `p > 100` the explicit bound check panics. -/
theorem claim_C7 (p : Pager) (hwf : PagerWF p) (n : Nat) :
    (p.get n).isSome = true ↔ n < TABLE_MAX_PAGES := by
  constructor
  · intro h
    by_contra hn
    rw [Pager.get_none p n hwf.pages_len (by omega)] at h
    cases h
  · intro hn
    rw [Pager.get_spec p n hwf hn]
    rfl

theorem claim_C7_witness :
    ((Pager.open []).get 5).isSome = true ↔ 5 < TABLE_MAX_PAGES :=
  claim_C7 (Pager.open [])
    ⟨rfl, rfl, by
      intro pg hpg
      rw [List.eq_of_mem_replicate hpg]
      left
      rfl⟩ 5

/-- C8: deserialization is partial even on a 291-byte buffer: when the
length bytes at offsets 4 and 5 make `6 + buf[4] + buf[5]` exceed 291
it fails (out-of-range slice), and it returns a record only when both
field ranges fit and are valid UTF-8. -/
theorem claim_C8 (buf : List Nat) (hlen : buf.length = ROW_SIZE) :
    (291 < 6 + buf.getD 4 0 + buf.getD 5 0 → Row.deserialize buf = none) ∧
    (∀ r, Row.deserialize buf = some r →
      6 + buf.getD 4 0 + buf.getD 5 0 ≤ 291 ∧
      utf8Valid (segment buf 6 (buf.getD 4 0)) = true ∧
      utf8Valid (segment buf (6 + buf.getD 4 0) (buf.getD 5 0)) = true) := by
  rw [ROW_SIZE_eq] at hlen
  rcases buf with _ | ⟨b0, _ | ⟨b1, _ | ⟨b2, _ | ⟨b3, _ | ⟨b4, _ | ⟨b5, rest⟩⟩⟩⟩⟩⟩ <;>
    simp only [List.length_cons, List.length_nil] at hlen <;> try omega
  have hrest : rest.length = 285 := by omega
  have hgetD4 : (b0 :: b1 :: b2 :: b3 :: b4 :: b5 :: rest).getD 4 0 = b4 := rfl
  have hgetD5 : (b0 :: b1 :: b2 :: b3 :: b4 :: b5 :: rest).getD 5 0 = b5 := rfl
  rw [hgetD4, hgetD5]
  simp only [Row.deserialize]
  constructor
  · intro hgt
    rw [if_neg (by omega)]
  · intro r hr
    by_cases hcond : b4 + b5 ≤ rest.length
    · rw [if_pos hcond] at hr
      refine ⟨by omega, ?_⟩
      by_cases hu : (utf8Valid (rest.take b4) && utf8Valid (segment rest b4 b5)) = true
      · rw [Bool.and_eq_true] at hu
        have hseg1 : segment (b0 :: b1 :: b2 :: b3 :: b4 :: b5 :: rest) 6 b4
            = rest.take b4 := rfl
        have hseg2 : segment (b0 :: b1 :: b2 :: b3 :: b4 :: b5 :: rest) (6 + b4) b5
            = segment rest b4 b5 := by
          unfold segment
          congr 1
          rw [← List.drop_drop]
          rfl
        exact ⟨by rw [hseg1]; exact hu.1, by rw [hseg2]; exact hu.2⟩
      · rw [if_neg hu] at hr
        cases hr
    · rw [if_neg hcond] at hr
      cases hr

theorem claim_C8_witness :
    Row.deserialize (0 :: 0 :: 0 :: 0 :: 255 :: 255 :: List.replicate 285 0) = none :=
  (claim_C8 _ (by decide)).1 (by decide)

/-- C6: at teardown with `num_rows = m`, every resident page among the
first `m / 14` is flushed whole (its 4096 bytes land at its file
offset), and a non-empty partial page `m / 14` is flushed with exactly
`(m % 14) * 291` bytes and never the full page buffer: its live prefix
lands at its offset, every file byte at or past the
`(m / 14) * 4096 + (m % 14) * 291` boundary is exactly what it was
before the teardown, and the file cannot grow past that boundary.
Flushing a never-materialized page is a no-op that changes nothing. -/
theorem claim_C6 (t : Table) (hwf : PagerWF t.pager)
    (hrows : t.num_rows ≤ TABLE_MAX_ROWS) :
    (∃ p2, t.dropTable = some p2 ∧
      (∀ i, i < t.num_rows / ROWS_PER_PAGE →
        (t.pager.pages.getD i []).length = PAGE_SIZE →
        segment p2.file (i * PAGE_SIZE) PAGE_SIZE = t.pager.pages.getD i []) ∧
      (0 < t.num_rows % ROWS_PER_PAGE →
        (t.pager.pages.getD (t.num_rows / ROWS_PER_PAGE) []).length = PAGE_SIZE →
        segment p2.file ((t.num_rows / ROWS_PER_PAGE) * PAGE_SIZE)
            ((t.num_rows % ROWS_PER_PAGE) * ROW_SIZE) =
          (t.pager.pages.getD (t.num_rows / ROWS_PER_PAGE) []).take
            ((t.num_rows % ROWS_PER_PAGE) * ROW_SIZE)) ∧
      (∀ j, (t.num_rows / ROWS_PER_PAGE) * PAGE_SIZE +
          (t.num_rows % ROWS_PER_PAGE) * ROW_SIZE ≤ j →
        p2.file[j]? = t.pager.file[j]?) ∧
      p2.file.length ≤ max t.pager.file.length
        ((t.num_rows / ROWS_PER_PAGE) * PAGE_SIZE +
          (t.num_rows % ROWS_PER_PAGE) * ROW_SIZE)) ∧
    (∀ p : Pager, ∀ n sz : Nat, n < p.pages.length → p.pages.getD n [] = [] →
      p.flush n sz = some p) := by
  obtain ⟨p2, hdrop, _, _, hfullpages, hpartEq, _, htail, hbound⟩ :=
    Table.dropTable_spec t hwf hrows
  exact ⟨⟨p2, hdrop, hfullpages, hpartEq, htail, hbound⟩,
    fun p n sz hn hempty => Pager.flush_noop p n sz hn hempty⟩

theorem claim_C6_witness :
    ((∃ p2, (Table.db_open []).dropTable = some p2 ∧
      (∀ i, i < (Table.db_open []).num_rows / ROWS_PER_PAGE →
        ((Table.db_open []).pager.pages.getD i []).length = PAGE_SIZE →
        segment p2.file (i * PAGE_SIZE) PAGE_SIZE
          = (Table.db_open []).pager.pages.getD i []) ∧
      (0 < (Table.db_open []).num_rows % ROWS_PER_PAGE →
        ((Table.db_open []).pager.pages.getD
          ((Table.db_open []).num_rows / ROWS_PER_PAGE) []).length = PAGE_SIZE →
        segment p2.file (((Table.db_open []).num_rows / ROWS_PER_PAGE) * PAGE_SIZE)
            (((Table.db_open []).num_rows % ROWS_PER_PAGE) * ROW_SIZE) =
          ((Table.db_open []).pager.pages.getD
            ((Table.db_open []).num_rows / ROWS_PER_PAGE) []).take
            (((Table.db_open []).num_rows % ROWS_PER_PAGE) * ROW_SIZE)) ∧
      (∀ j, ((Table.db_open []).num_rows / ROWS_PER_PAGE) * PAGE_SIZE +
          ((Table.db_open []).num_rows % ROWS_PER_PAGE) * ROW_SIZE ≤ j →
        p2.file[j]? = (Table.db_open []).pager.file[j]?) ∧
      p2.file.length ≤ max (Table.db_open []).pager.file.length
        (((Table.db_open []).num_rows / ROWS_PER_PAGE) * PAGE_SIZE +
          ((Table.db_open []).num_rows % ROWS_PER_PAGE) * ROW_SIZE)) ∧
    (∀ p : Pager, ∀ n sz : Nat, n < p.pages.length → p.pages.getD n [] = [] →
      p.flush n sz = some p)) :=
  claim_C6 (Table.db_open [])
    ⟨rfl, rfl, by
      intro pg hpg
      rw [List.eq_of_mem_replicate hpg]
      left
      rfl⟩
    (by decide)

/-- C9: a successful append at row index `num_rows` modifies only that
row's 291-byte window — all other pages' buffers are untouched, every
other row window is unchanged, and even within the written window the
bytes at or past the encoded fields keep their previous values — and
increments `num_rows` by exactly one; moreover no operation
(`add_row`, `get_row`, scanning) ever decreases `num_rows`. -/
theorem claim_C9 :
    (∀ (t : Table) (r : Row), PagerWF t.pager → t.num_rows < TABLE_MAX_ROWS →
      r.valid →
      ∃ t2, t.add_row r = some (t2, none) ∧
        t2.num_rows = t.num_rows + 1 ∧
        (∀ m, m ≠ t.num_rows / ROWS_PER_PAGE →
          t2.pager.pages.getD m [] = t.pager.pages.getD m []) ∧
        (∀ j, j ≠ t.num_rows → t2.slotView j = t.slotView j) ∧
        (∀ k, 6 + r.user_id.length + r.email.length ≤ k →
          (t2.slotView t.num_rows)[k]? = (t.slotView t.num_rows)[k]?)) ∧
    (∀ (t : Table) (r : Row) (out : Table × Option DbError),
      t.add_row r = some out → t.num_rows ≤ out.1.num_rows) ∧
    (∀ (t : Table) (i : Nat) (out : Table × Nat × Nat × List Nat),
      t.get_row i = some (Except.ok out) → out.1.num_rows = t.num_rows) ∧
    (∀ (t : Table) (out : Table × Except DbError (List Row)),
      t.scan = some out → out.1.num_rows = t.num_rows) := by
  refine ⟨?_, Table.add_row_num_rows, Table.get_row_num_rows, Table.scan_num_rows⟩
  intro t r hwf hrows hv
  obtain ⟨t2, hadd, hnum, _, _, _, _, hframe, _, _, hpframe, s2, hser, hsx⟩ :=
    Table.add_row_spec t r hwf hrows hv
  refine ⟨t2, hadd, hnum, hpframe, hframe, ?_⟩
  intro k hk
  rw [hsx]
  exact serialize_frame r _ s2 hser k hk

theorem claim_C9_witness :
    ∃ t2, (Table.db_open []).add_row sampleRow = some (t2, none) ∧
      t2.num_rows = (Table.db_open []).num_rows + 1 ∧
      (∀ m, m ≠ (Table.db_open []).num_rows / ROWS_PER_PAGE →
        t2.pager.pages.getD m [] = (Table.db_open []).pager.pages.getD m []) ∧
      (∀ j, j ≠ (Table.db_open []).num_rows →
        t2.slotView j = (Table.db_open []).slotView j) ∧
      (∀ k, 6 + sampleRow.user_id.length + sampleRow.email.length ≤ k →
        (t2.slotView (Table.db_open []).num_rows)[k]? =
          ((Table.db_open []).slotView (Table.db_open []).num_rows)[k]?) :=
  claim_C9.1 (Table.db_open []) sampleRow (PagerWF_db_open []) (by decide) (by decide)

/-- C10: a page slot is always either empty (never materialized) or
exactly `PAGE_SIZE` bytes, and every operation — open, get, flush,
append, scan, teardown — preserves this together with the one-way
unloaded-to-resident transition: a resident page never unloads and its
length never changes. -/
theorem claim_C10 :
    (∀ file, PagerWF (Table.db_open file).pager) ∧
    (∀ (p : Pager) (n : Nat) (out : Pager × List Nat), PagerWF p →
      p.get n = some out → PagerWF out.1 ∧ ResMono p.pages out.1.pages) ∧
    (∀ (p : Pager) (n sz : Nat) (p2 : Pager), p.flush n sz = some p2 →
      p2.pages = p.pages) ∧
    (∀ (t : Table) (r : Row) (out : Table × Option DbError), PagerWF t.pager →
      t.add_row r = some out →
      PagerWF out.1.pager ∧ ResMono t.pager.pages out.1.pager.pages) ∧
    (∀ (t : Table) (out : Table × Except DbError (List Row)), PagerWF t.pager →
      t.scan = some out →
      PagerWF out.1.pager ∧ ResMono t.pager.pages out.1.pager.pages) ∧
    (∀ (t : Table) (p2 : Pager), t.dropTable = some p2 →
      p2.pages = t.pager.pages) :=
  ⟨PagerWF_db_open,
   fun p n out hwf h => Pager.get_pages p n out hwf h,
   Pager.flush_pages,
   fun t r out hwf h => Table.add_row_pages t r out hwf h,
   fun t out hwf h => Table.scanRows_pages (List.range t.num_rows) t out hwf h,
   Table.dropTable_pages⟩

theorem claim_C10_witness :
    PagerWF (Table.db_open []).pager ∧
    ∃ out, (Pager.open []).get 3 = some out ∧ PagerWF out.1 ∧
      ResMono (Pager.open []).pages out.1.pages := by
  have hwf : PagerWF (Pager.open []) :=
    ⟨rfl, rfl, fun pg hpg => by rw [List.eq_of_mem_replicate hpg]; left; rfl⟩
  have hget := Pager.get_spec (Pager.open []) 3 hwf (by decide)
  exact ⟨claim_C10.1 [], _, hget, claim_C10.2.1 (Pager.open []) 3 _ hwf hget⟩

end SimpleDb
